import Mathlib

/-!
Verification development for the app (plugin) hosting core of the ignite CLI.

The Go sources embedded here are, in order:
  - ignite/services/app/plugin.go   (App record, newApp, load, fetch, build,
    clean, outdatedBinary, KillClient, Update)
  - the app reattachment cache      (writeConfigCache, readConfigCache,
    checkConfCache, deleteConfCache)
  - ignite/cmd app linking          (linkApps, linkAppHooks, linkAppHook,
    linkAppCmds, linkAppCmd, findCommandByPath, UnloadApps)

External collaborators (the Go standard library path and strings packages,
the git/build/RPC toolchains and the cobra command framework) are embedded
as explicit oracles or as small functions modelling their documented
behaviour; every such function carries a doc comment naming its origin.
-/

namespace Ignite

/-- Model of a Go error value.  The msg field carries the formatted message;
goModNotFound records whether errors.Is on the value against the sentinel
gomodule.ErrGoModNotFound holds (the only errors.Is test the embedded code
performs). -/
structure GoErr where
  msg : String
  goModNotFound : Bool := false
deriving DecidableEq, Repr

/-- Finds the last occurrence of sep in a character list, returning the
characters before and after it; none when sep does not occur.  Models Go
strings.LastIndex together with the two slicing operations the source
performs on its result. -/
def splitLastChar (sep : Char) : List Char → Option (List Char × List Char)
  | [] => none
  | x :: xs =>
    match splitLastChar sep xs with
    | some (a, b) => some (x :: a, b)
    | none => if x = sep then some ([], xs) else none

/-- Splits a character list at every occurrence of sep; the result always
has one more element than the number of separators.  Models Go
strings.Split with a one-character separator. -/
def splitOnCharList (sep : Char) : List Char → List (List Char)
  | [] => [[]]
  | c :: cs =>
    match splitOnCharList sep cs with
    | [] => [[]]
    | h :: t => if c = sep then [] :: h :: t else (c :: h) :: t

/-- Model of Go strings.Split with a one-character separator. -/
def stringSplit (s : String) (sep : Char) : List String :=
  (splitOnCharList sep s.toList).map String.mk

/-- Model of Go strings.ReplaceAll with one-character pattern and
replacement. -/
def replaceAllChar (s : String) (a b : Char) : String :=
  String.mk (s.toList.map (fun c => if c = a then b else c))

/-- Model of Go strings.HasPrefix (kernel-reducible form). -/
def strHasPrefix (s pre : String) : Bool :=
  pre.toList.isPrefixOf s.toList

/-- Stack-based segment normalisation used by pathClean; mirrors the spec of
Go path.Clean: drop empty and dot segments, let a dotdot segment cancel the
preceding segment, and drop a leading dotdot of a rooted path. -/
def cleanSegsLoop (rooted : Bool) : List String → List String → List String
  | stack, [] => stack.reverse
  | stack, seg :: rest =>
    if seg = "" ∨ seg = "." then cleanSegsLoop rooted stack rest
    else if seg = ".." then
      match stack with
      | [] =>
        if rooted then cleanSegsLoop rooted [] rest
        else cleanSegsLoop rooted [".."] rest
      | top :: stk =>
        if top = ".." then cleanSegsLoop rooted (".." :: top :: stk) rest
        else cleanSegsLoop rooted stk rest
    else cleanSegsLoop rooted (seg :: stack) rest

/-- Model of Go path.Clean (lexical normalisation of a slash-separated
path). -/
def pathClean (s : String) : String :=
  if s = "" then "."
  else
    let rooted := strHasPrefix s "/"
    let segs := cleanSegsLoop rooted [] (stringSplit s '/')
    let out := (if rooted then "/" else "") ++ String.intercalate "/" segs
    if out = "" then "." else out

/-- Model of Go path.Join: join the non-empty elements with a slash and
clean the result; the join of no non-empty elements is the empty string. -/
def pathJoin (elems : List String) : String :=
  let ne := elems.filter (fun e => e ≠ "")
  if ne.isEmpty then "" else pathClean (String.intercalate "/" ne)

/-- Model of Go path.Base: the last element of the path after trailing
slashes are removed; "." for the empty path and "/" for a path of only
slashes. -/
def pathBase (s : String) : String :=
  if s = "" then "."
  else
    let cs := (s.toList.reverse.dropWhile (fun c => c = '/')).reverse
    let tl := match splitLastChar '/' cs with
      | some (_, b) => b
      | none => cs
    if tl.isEmpty then "/" else String.mk tl

/-- Modelled from the spec: xurl.HTTPS (not under src) derives an HTTPS
clone URL from the repository path. -/
def httpsURL (repoPath : String) : String :=
  "https://" ++ repoPath

/-- Result of the os.Stat oracle for the local-app existence check in
newApp. -/
inductive StatResult where
  | missing
  | file
  | dir
deriving DecidableEq, Repr

/-- Command descriptor of an app manifest (app.Command).  Short, Long and
Flags are omitted: no embedded claim observes them. -/
inductive ACmd where
  | mk (use : String) (placeCommandUnder : String) (commands : List ACmd)

mutual

def ACmd.decEq : (a b : ACmd) → Decidable (a = b)
  | .mk u1 p1 c1, .mk u2 p2 c2 =>
    match String.decEq u1 u2 with
    | isFalse h => isFalse (by intro e; cases e; exact h rfl)
    | isTrue h1 =>
      match String.decEq p1 p2 with
      | isFalse h => isFalse (by intro e; cases e; exact h rfl)
      | isTrue h2 =>
        match ACmd.decEqList c1 c2 with
        | isFalse h => isFalse (by intro e; cases e; exact h rfl)
        | isTrue h3 => isTrue (by rw [h1, h2, h3])

def ACmd.decEqList : (a b : List ACmd) → Decidable (a = b)
  | [], [] => isTrue rfl
  | [], _ :: _ => isFalse (by intro h; cases h)
  | _ :: _, [] => isFalse (by intro h; cases h)
  | x :: xs, y :: ys =>
    match ACmd.decEq x y with
    | isFalse h => isFalse (by intro e; cases e; exact h rfl)
    | isTrue h1 =>
      match ACmd.decEqList xs ys with
      | isFalse h => isFalse (by intro e; cases e; exact h rfl)
      | isTrue h2 => isTrue (by rw [h1, h2])

end

instance : DecidableEq ACmd := ACmd.decEq

def ACmd.use : ACmd → String
  | .mk u _ _ => u

def ACmd.placeCommandUnder : ACmd → String
  | .mk _ p _ => p

def ACmd.commands : ACmd → List ACmd
  | .mk _ _ cs => cs

/-- Hook descriptor of an app manifest (app.Hook). -/
structure AHook where
  name : String
  placeHookOn : String
deriving DecidableEq, Repr

/-- App manifest (app.Manifest): name, shared-host flag, command and hook
descriptors. -/
structure GoManifest where
  mName : String
  sharedHost : Bool
  commands : List ACmd
  hooks : List AHook
deriving DecidableEq

/-- Reattachment descriptor (hplugin.ReattachConfig).  The owner field
identifies the loader instance whose client launched the plugin process;
it stands for the address and process metadata of the real descriptor. -/
structure ReattachConfig where
  owner : Nat
deriving DecidableEq, Repr

/-- RPC client handle (hplugin.Client): its reattachment descriptor and
whether the subprocess behind it has not been sent a kill signal through
this handle. -/
structure ClientSt where
  conf : ReattachConfig
  alive : Bool
deriving DecidableEq, Repr

/-- The App record of plugin.go.  The embedded configuration is reduced to
its Path; the event bus and stdio sinks are omitted (no claim observes
them). -/
structure App where
  Path : String := ""
  Error : Option GoErr := none
  name : String := ""
  repoPath : String := ""
  cloneURL : String := ""
  cloneDir : String := ""
  reference : String := ""
  srcPath : String := ""
  client : Option ClientSt := none
  manifest : Option GoManifest := none
  isHost : Bool := false
  isSharedHost : Bool := false
deriving DecidableEq

/-- Modelled from the spec: appsconfig.App.IsLocalPath (not under src);
local apps have their path starting with a slash. -/
def isLocalPath (path : String) : Bool :=
  strHasPrefix path "/"

/-- The newApp constructor of plugin.go: resolves a configured reference
string into a local or remote App, deriving repository path, clone URL,
clone directory, source path and display name.  The stat argument is the
os.Stat oracle consulted for local paths. -/
def newApp (appsDir : String) (cfgPath : String) (stat : StatResult) : App :=
  if cfgPath = "" then
    { Path := cfgPath, Error := some ⟨"missing app property path", false⟩ }
  else if strHasPrefix cfgPath "/" then
    match stat with
    | .missing =>
      { Path := cfgPath, Error := some ⟨"local app path " ++ cfgPath ++ " not found", false⟩ }
    | .file =>
      { Path := cfgPath,
        Error := some ⟨"local app path " ++ cfgPath ++ " is not a directory", false⟩ }
    | .dir =>
      { Path := cfgPath, srcPath := cfgPath, name := pathBase cfgPath }
  else
    let (appPath, reference) :=
      match splitLastChar '@' cfgPath.toList with
      | some (a, b) => (String.mk a, String.mk b)
      | none => (cfgPath, "")
    let parts := stringSplit appPath '/'
    if parts.length < 3 then
      { Path := cfgPath, reference := reference,
        Error := some ⟨"app path " ++ appPath ++ " is not a valid repository URL", false⟩ }
    else
      let repoPath0 := pathJoin (parts.take 3)
      let cloneURL := httpsURL repoPath0
      let (cloneDir, repoPath) :=
        if reference.length > 0 then
          let ref := replaceAllChar reference '/' '-'
          (pathJoin [appsDir, repoPath0 ++ "-" ++ ref], repoPath0 ++ "@" ++ reference)
        else
          (pathJoin [appsDir, repoPath0], repoPath0)
      let repoSubPath := pathJoin (parts.drop 3)
      { Path := cfgPath, reference := reference, repoPath := repoPath,
        cloneURL := cloneURL, cloneDir := cloneDir,
        srcPath := pathJoin [cloneDir, repoSubPath],
        name := pathBase appPath }

/-- The process-level reattachment cache: a persisted mapping from app path
to reattachment descriptor (the cache.Cache of hplugin.ReattachConfig of the
cache file, namespaced and versioned).  The storage itself is modelled as
healthy (newCache succeeds); gob or file level failures of Get and Put are
the getOk and putOk oracles of readConfigCache and writeConfigCache. -/
abbrev Cache := List (String × ReattachConfig)

/-- Lookup of the underlying cache map (cache.Get): the first entry stored
under the key, if any. -/
def cacheGet (k : String) : Cache → Option ReattachConfig
  | [] => none
  | e :: rest => if e.1 = k then some e.2 else cacheGet k rest

/-- Removal of the underlying cache map (cache.Delete). -/
def cacheDeleteKey (k : String) (c : Cache) : Cache :=
  c.filter (fun e => e.1 ≠ k)

/-- Store of the underlying cache map (cache.Put): overwrite semantics,
modelled as removing any existing entry for the key and prepending the new
one. -/
def cachePut (k : String) (v : ReattachConfig) (c : Cache) : Cache :=
  (k, v) :: cacheDeleteKey k c

/-- writeConfigCache of the cache file: rejects an empty app path, then
stores the descriptor under the app path.  putOk is the storage oracle (the
descriptor address is always non-nil in this model). -/
def writeConfigCache (putOk : Bool) (appPath : String) (conf : ReattachConfig)
    (c : Cache) : Except GoErr Cache :=
  if appPath = "" then .error ⟨"provided path is invalid", false⟩
  else if putOk then .ok (cachePut appPath conf c)
  else .error ⟨"cache put failed", false⟩

/-- readConfigCache of the cache file: rejects an empty app path, then
fetches the descriptor stored under the app path.  getOk is the storage
oracle. -/
def readConfigCache (getOk : Bool) (appPath : String) (c : Cache) :
    Except GoErr ReattachConfig :=
  if appPath = "" then .error ⟨"provided path is invalid", false⟩
  else if ¬getOk then .error ⟨"cache get failed", false⟩
  else match cacheGet appPath c with
    | some v => .ok v
    | none => .error ⟨"no value for key", false⟩

/-- checkConfCache of the cache file: false for an empty app path, true
exactly when an entry exists for the app path. -/
def checkConfCache (appPath : String) (c : Cache) : Bool :=
  if appPath = "" then false else (cacheGet appPath c).isSome

/-- deleteConfCache of the cache file: rejects an empty app path, then
removes the entry stored under the app path. -/
def deleteConfCache (appPath : String) (c : Cache) : Except GoErr Cache :=
  if appPath = "" then .error ⟨"provided path is invalid", false⟩
  else .ok (cacheDeleteKey appPath c)

/-- KillClient of plugin.go: a shared-host app not owned by this process is
left untouched; otherwise an existing client handle is killed and, when
this instance is the host, the cache entry for the app path is deleted (the
deletion error is discarded) and isHost is cleared. -/
def KillClient (p : App) (c : Cache) : App × Cache :=
  if p.isSharedHost && !p.isHost then (p, c)
  else
    let p1 := match p.client with
      | some cl => { p with client := some { cl with alive := false } }
      | none => p
    if p1.isHost then
      let c1 := match deleteConfCache p1.Path c with
        | .ok c2 => c2
        | .error _ => c
      ({ p1 with isHost := false }, c1)
    else (p1, c)

/-- Manifest accessor of plugin.go: returns the manifest cached in the App
value; no RPC is involved. -/
def Manifest (p : App) : Option GoManifest := p.manifest

/-- binaryName of plugin.go. -/
def binaryName (p : App) : String := p.name ++ ".ign"

/-- binaryPath of plugin.go. -/
def binaryPath (p : App) : String := pathJoin [p.srcPath, binaryName p]

/-- One entry reported by the filepath.Walk oracle over srcPath.  Go's zero
time is modelled as modification time 0. -/
structure FsEntry where
  path : String
  isDir : Bool
  modTime : Nat
deriving DecidableEq

/-- The walk body of outdatedBinary: directories are skipped, an entry at
the binary path records the binary's modification time, every other entry
updates the most recent modification time when it is zero or the entry is
newer. -/
def outdatedScan (binPath : String) : List FsEntry → Nat × Nat → Nat × Nat
  | [], acc => acc
  | e :: rest, (bt, mr) =>
    if e.isDir then outdatedScan binPath rest (bt, mr)
    else if e.path = binPath then outdatedScan binPath rest (e.modTime, mr)
    else if mr = 0 ∨ e.modTime > mr then outdatedScan binPath rest (bt, e.modTime)
    else outdatedScan binPath rest (bt, mr)

/-- outdatedBinary of plugin.go: true when the most recent modification
time among the other files is after the binary's modification time; false
when the walk failed. -/
def outdatedBinary (binPath : String) (files : List FsEntry) (walkErr : Bool) : Bool :=
  if walkErr then false
  else
    let (bt, mr) := outdatedScan binPath files (0, 0)
    Nat.blt bt mr

/-- Oracle answers for the external effects of one load: the two os.Stat
calls, the clone, the walk, the two build steps, the RPC handshake, the
manifest call and the cache storage. -/
structure LoadEnv where
  srcExists : Bool
  cloneOk : Bool
  files : List FsEntry
  walkErr : Bool
  modTidyOk : Bool
  buildOk : Bool
  connectOk : Bool
  dispenseOk : Bool
  manifest : Option GoManifest
  readCacheOk : Bool
  writeCacheOk : Bool

/-- Result of the os.Stat call on the binary path in the remote branch of
load, derived from the walk oracle. -/
def binStat (p : App) (env : LoadEnv) : Bool :=
  env.files.any (fun e => e.path = binaryPath p)

/-- Observable steps of load, fetch, build and Update. -/
inductive LEv where
  | fetched
  | built
  | reattached
  | launched
  | connected
  | dispensed
  | manifestRPC
  | published
deriving DecidableEq

/-- fetch of plugin.go: clones the repository at the expected reference; a
no-op for local apps and for apps already in error.  cloneOk is the
xgit.Clone oracle. -/
def fetch (p : App) (cloneOk : Bool) : App × List LEv :=
  if isLocalPath p.Path then (p, [])
  else if p.Error.isSome then (p, [])
  else if cloneOk then (p, [.fetched])
  else ({ p with Error := some ⟨"cloning " ++ p.repoPath, false⟩ }, [.fetched])

/-- build of plugin.go: a dependency-tidy step then a compile step against
the source path; a no-op for apps already in error. -/
def build (p : App) (modTidyOk buildOk : Bool) : App × List LEv :=
  if p.Error.isSome then (p, [])
  else if ¬modTidyOk then ({ p with Error := some ⟨"go mod tidy", false⟩ }, [.built])
  else if ¬buildOk then ({ p with Error := some ⟨"go build", false⟩ }, [.built])
  else (p, [.built])

/-- clean of plugin.go: removes the clone directory of a remote app; apps
in error and local apps are skipped without error.  removeOk is the
os.RemoveAll oracle; the returned flag records whether a removal was
attempted. -/
def clean (p : App) (removeOk : Bool) : Option GoErr × Bool :=
  if p.Error.isSome then (none, false)
  else if isLocalPath p.Path then (none, false)
  else if removeOk then (none, true)
  else (some ⟨"remove " ++ p.cloneDir, false⟩, true)

/-- Filesystem operations performed by Update, tagged with the position of
the app in the argument list. -/
inductive UEv where
  | removeDir (idx : Nat)
  | cloned (idx : Nat)
deriving DecidableEq

/-- Update of plugin.go: removes the cache directory of each app and
fetches it again, returning at the first clean failure.  Each app is paired
with its removeOk and cloneOk oracles; idx is the position of the first
app. -/
def Update : List (App × Bool × Bool) → Nat → List App × List UEv × Option GoErr
  | [], _ => ([], [], none)
  | (p, removeOk, cloneOk) :: rest, idx =>
    match clean p removeOk with
    | (some e, attempted) =>
      (p :: rest.map (fun x => x.1),
       if attempted then [.removeDir idx] else [], some e)
    | (none, attempted) =>
      let (p', ft) := fetch p cloneOk
      let here := (if attempted then [UEv.removeDir idx] else [])
        ++ ft.map (fun _ => UEv.cloned idx)
      let (restApps, restEvs, restErr) := Update rest (idx + 1)
      (p' :: restApps, here ++ restEvs, restErr)

/-- load of plugin.go, fetch and build stages: fetch when the source path
is absent, then rebuild a local app when its binary is outdated or a remote
app when its binary is absent.  The caller has already checked p.Error. -/
def loadPrep (p : App) (env : LoadEnv) : App × List LEv :=
  let r1 := if ¬env.srcExists then fetch p env.cloneOk else (p, [])
  if r1.1.Error.isSome then r1
  else
    let r2 :=
      if isLocalPath r1.1.Path then
        if outdatedBinary (binaryPath r1.1) env.files env.walkErr then
          build r1.1 env.modTidyOk env.buildOk
        else (r1.1, [])
      else
        if ¬binStat r1.1 env then build r1.1 env.modTidyOk env.buildOk
        else (r1.1, [])
    (r2.1, r1.2 ++ r2.2)

/-- load of plugin.go, from the established connection to the shared-host
publication: dispense the service, fetch and cache the manifest, record
isSharedHost and, when the manifest declares shared hosting and no cache
entry exists for the app path, publish this client's reattachment
descriptor and mark this instance as host.  conf is the descriptor of the
client configured by the caller. -/
def loadHandshake (p : App) (conf : ReattachConfig) (c : Cache) (env : LoadEnv) :
    App × Cache × List LEv :=
  if ¬env.connectOk then ({ p with Error := some ⟨"connecting", false⟩ }, c, [])
  else if ¬env.dispenseOk then
    ({ p with Error := some ⟨"dispensing", false⟩ }, c, [.connected])
  else match env.manifest with
    | none =>
      ({ p with Error := some ⟨"manifest load", false⟩ }, c,
       [.connected, .dispensed, .manifestRPC])
    | some m =>
      let p1 := { p with isSharedHost := m.sharedHost, manifest := some m }
      if m.sharedHost && !(checkConfCache p1.Path c) then
        match writeConfigCache env.writeCacheOk p1.Path conf c with
        | .error e =>
          ({ p1 with Error := some e }, c, [.connected, .dispensed, .manifestRPC])
        | .ok c1 =>
          ({ p1 with isHost := true }, c1,
           [.connected, .dispensed, .manifestRPC, .published])
      else (p1, c, [.connected, .dispensed, .manifestRPC])

/-- load of plugin.go, client configuration stage: reattach to the cached
descriptor when a cache entry exists for the app path, otherwise launch the
built binary as a new subprocess whose descriptor is owned by selfId. -/
def loadConnect (selfId : Nat) (p : App) (c : Cache) (env : LoadEnv) :
    App × Cache × List LEv :=
  if checkConfCache p.Path c then
    match readConfigCache env.readCacheOk p.Path c with
    | .error e => ({ p with Error := some e }, c, [])
    | .ok conf =>
      let r := loadHandshake { p with client := some ⟨conf, true⟩ } conf c env
      (r.1, r.2.1, .reattached :: r.2.2)
  else
    let conf : ReattachConfig := ⟨selfId⟩
    let r := loadHandshake { p with client := some ⟨conf, true⟩ } conf c env
    (r.1, r.2.1, .launched :: r.2.2)

/-- load of plugin.go: an app already in error is returned unchanged;
otherwise fetch and build run first and, when they leave no error, the RPC
client is configured, connected and the manifest handshake performed. -/
def load (selfId : Nat) (p : App) (c : Cache) (env : LoadEnv) :
    App × Cache × List LEv :=
  if p.Error.isSome then (p, c, [])
  else
    let r1 := loadPrep p env
    if r1.1.Error.isSome then (r1.1, c, r1.2)
    else
      let r2 := loadConnect selfId r1.1 c env
      (r2.1, r2.2.1, r1.2 ++ r2.2.2)

/-- Modification time of the last non-directory walk entry at the binary
path, if any (the value outdatedScan leaves in its first component). -/
def lastBinTime (bin : String) : List FsEntry → Option Nat
  | [] => none
  | e :: rest =>
    match lastBinTime bin rest with
    | some t => some t
    | none => if ¬e.isDir ∧ e.path = bin then some e.modTime else none

/-- Number of cache entries stored under a key. -/
def countKey (k : String) (c : Cache) : Nat :=
  (c.filter (fun e => e.1 = k)).length

/-- State of several independent loader instances on one machine sharing
the persisted reattachment cache: the instance records and the cache. -/
structure Sys where
  insts : List App
  cache : Cache

/-- Cross-process events of the shared-host coordinator: instance i
performs load with the given oracle answers, or instance i performs
KillClient. -/
inductive SEv where
  | loadEv (i : Nat) (env : LoadEnv)
  | killEv (i : Nat)

/-- One event of the shared-host system. -/
def sysStep (s : Sys) : SEv → Sys
  | .loadEv i env =>
    match s.insts[i]? with
    | some p =>
      let r := load i p s.cache env
      ⟨s.insts.set i r.1, r.2.1⟩
    | none => s
  | .killEv i =>
    match s.insts[i]? with
    | some p =>
      let r := KillClient p s.cache
      ⟨s.insts.set i r.1, r.2⟩
    | none => s

/-- A sequence of events of the shared-host system. -/
def sysRun (s : Sys) (evs : List SEv) : Sys := evs.foldl sysStep s

/-- Shared-host ownership invariant for one app reference: at most one
cache entry is stored under the reference, an existing entry is owned by an
instance that is host for that reference, and every host instance for the
reference owns the cache entry. -/
def HostInv (path : String) (s : Sys) : Prop :=
  countKey path s.cache ≤ 1 ∧
  (∀ d : ReattachConfig, cacheGet path s.cache = some d →
    ∃ p, s.insts[d.owner]? = some p ∧ p.isHost = true ∧ p.Path = path) ∧
  (∀ i p, s.insts[i]? = some p → p.isHost = true → p.Path = path →
    cacheGet path s.cache = some ⟨i⟩)

/-- Events observed while a decorated command executes. -/
inductive HEv where
  | chainLookup
  | hookPre (h : Nat)
  | hookPost (h : Nat)
  | hookCleanUp (h : Nat)
  | bodyRun
  | sleep
deriving DecidableEq

/-- Oracle answers for one execution of a decorated command: the result of
each newChainWithHomeFlags call (one per wrapper phase; the calls are
independent and may differ) and the result of each hook's RPC phases,
indexed by hook identifier. -/
structure HookEnv where
  chainPre : Option GoErr
  chainRun : Option GoErr
  chainPost : Option GoErr
  preRes : Nat → Option GoErr
  postRes : Nat → Option GoErr
  cleanRes : Nat → Option GoErr

/-- A cobra command phase function (PreRunE, RunE or PostRunE): given the
oracle answers it yields the trace of observable events and an optional
error. -/
def Phase : Type := HookEnv → List HEv × Option GoErr

/-- The three phase slots of a cobra command that linkAppHook reassigns. -/
structure Cmd where
  preRunE : Option Phase
  runE : Option Phase
  postRunE : Option Phase

/-- The error wrapping of a failed ExecuteHookPre call: errors.Errorf with
the app path, preserving the errors.Is(ErrGoModNotFound) answer of the
wrapped error. -/
def wrapPreErr (appPath : String) (e : GoErr) : GoErr :=
  ⟨"app " ++ appPath ++ " ExecuteHookPre error: " ++ e.msg, e.goModNotFound⟩

/-- The error wrapping of a failed ExecuteHookPost call. -/
def wrapPostErr (appPath : String) (e : GoErr) : GoErr :=
  ⟨"app " ++ appPath ++ " ExecuteHookPost error: " ++ e.msg, e.goModNotFound⟩

/-- The ExecuteHookPre call at the end of the installed pre-phase. -/
def preCall (appPath : String) (hid : Nat) (t : List HEv) (env : HookEnv) :
    List HEv × Option GoErr :=
  let t := t ++ [HEv.hookPre hid]
  match env.preRes hid with
  | some e => (t, some (wrapPreErr appPath e))
  | none => (t, none)

/-- The PreRunE closure installed by linkAppHook: run the prior pre-phase
first and abort on its error, then look the chain up (continuing only when
the lookup succeeds or fails with ErrGoModNotFound), then call
ExecuteHookPre, wrapping its error. -/
def hookPrePhase (appPath : String) (hid : Nat) (prior : Option Phase) : Phase :=
  fun env =>
    let r0 := match prior with
      | some pr => pr env
      | none => ([], none)
    match r0.2 with
    | some e => (r0.1, some e)
    | none =>
      let t := r0.1 ++ [HEv.chainLookup]
      match env.chainPre with
      | some ce =>
        if ¬ce.goModNotFound then (t, some ce)
        else preCall appPath hid t env
      | none => preCall appPath hid t env

/-- The ExecuteHookCleanUp call of the RunE wrapper: its own error is only
printed, and the body's original error is returned. -/
def runCleanUpCall (hid : Nat) (t : List HEv) (bodyErr : GoErr) :
    List HEv × Option GoErr :=
  (t ++ [HEv.hookCleanUp hid], some bodyErr)

/-- The RunE closure installed by linkAppHook: run the prior body exactly
once; when it fails, look the chain up (returning the lookup error when it
is not ErrGoModNotFound), call ExecuteHookCleanUp (its error is printed,
not propagated) and return the body's error.  When no prior body exists,
sleep briefly and return nil. -/
def hookRunPhase (hid : Nat) (priorRun : Option Phase) : Phase :=
  fun env =>
    match priorRun with
    | some body =>
      let r := body env
      match r.2 with
      | some bodyErr =>
        let t := r.1 ++ [HEv.chainLookup]
        match env.chainRun with
        | some ce =>
          if ¬ce.goModNotFound then (t, some ce)
          else runCleanUpCall hid t bodyErr
        | none => runCleanUpCall hid t bodyErr
      | none => (r.1, none)
    | none => ([HEv.sleep], none)

/-- The part of the installed PostRunE after the deferred
ExecuteHookCleanUp has been registered: run the prior post-phase and return
its error, or call ExecuteHookPost wrapping its error; the deferred cleanup
runs on every exit path of this part and its error is printed, not
propagated. -/
def hookPostBody (appPath : String) (hid : Nat) (priorPost : Option Phase)
    (t0 : List HEv) (env : HookEnv) : List HEv × Option GoErr :=
  let r1 := match priorPost with
    | some pp => pp env
    | none => ([], none)
  match r1.2 with
  | some e => (t0 ++ r1.1 ++ [HEv.hookCleanUp hid], some e)
  | none =>
    let t := t0 ++ r1.1 ++ [HEv.hookPost hid]
    match env.postRes hid with
    | some e => (t ++ [HEv.hookCleanUp hid], some (wrapPostErr appPath e))
    | none => (t ++ [HEv.hookCleanUp hid], none)

/-- The PostRunE closure installed by linkAppHook: look the chain up first
(returning the lookup error, before the deferred cleanup is registered,
when it is not ErrGoModNotFound), then register the deferred cleanup and
run the post body. -/
def hookPostPhase (appPath : String) (hid : Nat) (priorPost : Option Phase) : Phase :=
  fun env =>
    let t0 := [HEv.chainLookup]
    match env.chainPost with
    | some ce =>
      if ¬ce.goModNotFound then (t0, some ce)
      else hookPostBody appPath hid priorPost t0 env
    | none => hookPostBody appPath hid priorPost t0 env

/-- linkAppHook of the command linker, phase-installation part: wraps (does
not replace) the three phase slots of the runnable command the hook is
attached to.  The lookup of the attachment point and its validation are
modelled with the command tree (linkAppHookT). -/
def linkAppHook (appPath : String) (hid : Nat) (cmd : Cmd) : Cmd :=
  { preRunE := some (hookPrePhase appPath hid cmd.preRunE),
    runE := some (hookRunPhase hid cmd.runE),
    postRunE := some (hookPostPhase appPath hid cmd.postRunE) }

/-- Runs an optional phase: a missing phase contributes nothing. -/
def runPhase (ph : Option Phase) (env : HookEnv) : List HEv × Option GoErr :=
  match ph with
  | some f => f env
  | none => ([], none)

/-- Modelled from the spec: the execution contract of the external command
framework for one runnable command — pre-phase, then body, then post-phase;
a pre-phase failure aborts before the body runs, and the post-phase is
skipped when the body fails. -/
def execCmdPhases (c : Cmd) (env : HookEnv) : List HEv × Option GoErr :=
  let r1 := runPhase c.preRunE env
  match r1.2 with
  | some e => (r1.1, some e)
  | none =>
    let r2 := runPhase c.runE env
    match r2.2 with
    | some e => (r1.1 ++ r2.1, some e)
    | none =>
      let r3 := runPhase c.postRunE env
      (r1.1 ++ r2.1 ++ r3.1, r3.2)

/-- A cobra command node: its Use string, whether it is runnable (a Run or
RunE function is assigned) and its subcommands in insertion order. -/
inductive CTree where
  | node (use : String) (runnable : Bool) (children : List CTree)

mutual

def CTree.decEq : (a b : CTree) → Decidable (a = b)
  | .node u1 r1 c1, .node u2 r2 c2 =>
    match String.decEq u1 u2 with
    | isFalse h => isFalse (by intro e; cases e; exact h rfl)
    | isTrue h1 =>
      match Bool.decEq r1 r2 with
      | isFalse h => isFalse (by intro e; cases e; exact h rfl)
      | isTrue h2 =>
        match CTree.decEqList c1 c2 with
        | isFalse h => isFalse (by intro e; cases e; exact h rfl)
        | isTrue h3 => isTrue (by rw [h1, h2, h3])

def CTree.decEqList : (a b : List CTree) → Decidable (a = b)
  | [], [] => isTrue rfl
  | [], _ :: _ => isFalse (by intro h; cases h)
  | _ :: _, [] => isFalse (by intro h; cases h)
  | x :: xs, y :: ys =>
    match CTree.decEq x y with
    | isFalse h => isFalse (by intro e; cases e; exact h rfl)
    | isTrue h1 =>
      match CTree.decEqList xs ys with
      | isFalse h => isFalse (by intro e; cases e; exact h rfl)
      | isTrue h2 => isTrue (by rw [h1, h2])

end

instance : DecidableEq CTree := CTree.decEq

def CTree.use : CTree → String
  | .node u _ _ => u

def CTree.runnable : CTree → Bool
  | .node _ r _ => r

def CTree.children : CTree → List CTree
  | .node _ _ cs => cs

/-- Models cobra Command.Name: the Use string up to the first space. -/
def cobraName (use : String) : String :=
  match splitOnCharList ' ' use.toList with
  | [] => use
  | h :: _ => String.mk h

/-- The command name of a node. -/
def CTree.name (c : CTree) : String := cobraName c.use

/-- Models cobra Command.CommandPath for a node whose parent has the given
command path (the root has parent path ""). -/
def cmdPathOf (parentPath : String) (use : String) : String :=
  if parentPath = "" then cobraName use else parentPath ++ " " ++ cobraName use

/-- Model of Go strings.TrimSpace restricted to the space character. -/
def trimSpace (s : String) : String :=
  String.mk
    (((s.toList.dropWhile (fun c => c = ' ')).reverse.dropWhile
      (fun c => c = ' ')).reverse)

/-- Modelled from the spec: app.Command.Path and app.Hook.CommandPath (the
Command and Hook methods are not under src) normalise the attachment path,
defaulting to the root: a path that does not begin with the root command
name is prefixed with it, and surrounding spaces are trimmed. -/
def commandPath (place : String) : String :=
  trimSpace (if strHasPrefix place "ignite" then place else "ignite " ++ place)

mutual

/-- findCommandByPath of the app linker: the current node when its command
path equals the target, else the first matching descendant in child
order. -/
def findCommandByPath (parentPath target : String) : CTree → Option CTree
  | .node u r cs =>
    let self := cmdPathOf parentPath u
    if self = target then some (.node u r cs)
    else findInChildren self target cs

def findInChildren (selfPath target : String) : List CTree → Option CTree
  | [] => none
  | c :: rest =>
    match findCommandByPath selfPath target c with
    | some x => some x
    | none => findInChildren selfPath target rest

end

mutual

/-- Applies a mutation at the node findCommandByPath would return,
rebuilding the tree around it; none when the path is absent.  This is the
functional rendering of the Go code mutating the found node in place. -/
def modifyAt (parentPath target : String) (f : CTree → CTree × Option GoErr) :
    CTree → Option (CTree × Option GoErr)
  | .node u r cs =>
    let self := cmdPathOf parentPath u
    if self = target then some (f (.node u r cs))
    else
      match modifyChildren self target f cs with
      | some rr => some (.node u r rr.1, rr.2)
      | none => none

def modifyChildren (selfPath target : String) (f : CTree → CTree × Option GoErr) :
    List CTree → Option (List CTree × Option GoErr)
  | [] => none
  | c :: rest =>
    match modifyAt selfPath target f c with
    | some rr => some (rr.1 :: rest, rr.2)
    | none =>
      match modifyChildren selfPath target f rest with
      | some rr => some (c :: rr.1, rr.2)
      | none => none

end

mutual

/-- The recursion of linkAppCmd below the attachment point: each
subcommand of a descriptor is placed directly under the freshly created
command (its PlaceCommandUnder is overwritten with the command path of the
new node); a subcommand whose name collides with an already attached
sibling fails, and a failure keeps the subcommands attached so far, as the
Go code mutates the live tree before recursing. -/
def linkSubCmds (parent : CTree) : List ACmd → CTree × Option GoErr
  | [] => (parent, none)
  | sub :: rest =>
    if parent.runnable then
      (parent, some ⟨"cant attach app command " ++ sub.use
        ++ " to runnable command", false⟩)
    else if (parent.children.map CTree.name).contains (cobraName sub.use) then
      (parent, some ⟨"app command " ++ cobraName sub.use
        ++ " already exists in Ignite commands", false⟩)
    else
      let r := buildAppCmd sub
      let parent2 := CTree.node parent.use parent.runnable (parent.children ++ [r.1])
      match r.2 with
      | some e => (parent2, some e)
      | none => linkSubCmds parent2 rest

/-- ToCobraCommand combined with the RunE assignment of linkAppCmd: a
descriptor without subcommands becomes a runnable leaf delegating to the
app Execute RPC; one with subcommands becomes a dispatch node whose
subcommands are linked recursively. -/
def buildAppCmd : ACmd → CTree × Option GoErr
  | .mk use _ cmds => linkSubCmds (CTree.node use cmds.isEmpty []) cmds

end

/-- The validation and insertion linkAppCmd applies at the attachment
node: a runnable node or a direct child whose name equals the descriptor's
first Use token is an error; otherwise the built command is added. -/
def attachAppCmd (ac : ACmd) (cmd : CTree) : CTree × Option GoErr :=
  if cmd.runnable then
    (cmd, some ⟨"cant attach app command " ++ ac.use
      ++ " to runnable command", false⟩)
  else if (cmd.children.map CTree.name).contains (cobraName ac.use) then
    (cmd, some ⟨"app command " ++ cobraName ac.use
      ++ " already exists in Ignite commands", false⟩)
  else
    let r := buildAppCmd ac
    (CTree.node cmd.use cmd.runnable (cmd.children ++ [r.1]), r.2)

/-- linkAppCmd of the app linker: locate the node at the descriptor's
attachment path (an absent path is an error naming it), validate it and
insert the built command under it. -/
def linkAppCmd (root : CTree) (appPath : String) (ac : ACmd) :
    CTree × Option GoErr :=
  let cmdPath := commandPath ac.placeCommandUnder
  match modifyAt "" cmdPath (attachAppCmd ac) root with
  | some rr => rr
  | none =>
    (root, some ⟨"unable to find command path " ++ cmdPath
      ++ " for app " ++ appPath, false⟩)

/-- linkAppCmds of the app linker: link the command descriptors in order,
returning at the first failure. -/
def linkAppCmds (root : CTree) (appPath : String) : List ACmd → CTree × Option GoErr
  | [] => (root, none)
  | ac :: rest =>
    let r := linkAppCmd root appPath ac
    match r.2 with
    | some e => (r.1, some e)
    | none => linkAppCmds r.1 appPath rest

/-- linkAppHook of the app linker, lookup and validation part: the node at
the hook's attachment path must exist and be runnable.  The wrapper
installation on the found node is modelled by linkAppHook over command
phases; the tree structure is unchanged by it. -/
def linkAppHookT (root : CTree) (h : AHook) : Option GoErr :=
  let cmdPath := commandPath h.placeHookOn
  match findCommandByPath "" cmdPath root with
  | none =>
    some ⟨"unable to find command path " ++ cmdPath
      ++ " for app hook " ++ h.name, false⟩
  | some node =>
    if ¬node.runnable then
      some ⟨"cant attach app hook " ++ h.name
        ++ " to non executable command " ++ h.placeHookOn, false⟩
    else none

/-- linkAppHooks of the app linker: every hook is attempted (the loop has
no early exit), and the last failure is the error left on the app. -/
def linkAppHooksT (root : CTree) (hooks : List AHook) : Option GoErr :=
  hooks.foldl
    (fun acc h =>
      match linkAppHookT root h with
      | some e => some e
      | none => acc) none

/-- Observable RPC and unload steps of linkApps, indexed by the position of
the app in the list. -/
inductive LKEv where
  | manifestRPC (i : Nat)
  | statusRPC (i : Nat)
  | killAttempt (i : Nat)
deriving DecidableEq

/-- Oracle for the Interface.Manifest RPC linkApps performs per app;
none models an RPC failure. -/
structure LinkEnv where
  manifestRPC : Nat → Option GoManifest

/-- The message of an App's Error slot ("" when no error). -/
def errMsgOf (p : App) : String :=
  match p.Error with
  | some e => e.msg
  | none => ""

/-- One pass of the linkApps loop for one app: an app already in error is
collected as is; otherwise the manifest is fetched over RPC (not from the
cache in the App value), the hooks are linked, then the commands; the app
carries the first error of these steps. -/
def linkOneApp (root : CTree) (env : LinkEnv) (i : Nat) (p : App) :
    CTree × App × List LKEv :=
  if p.Error.isSome then (root, p, [])
  else
    match env.manifestRPC i with
    | none =>
      (root, { p with Error := some ⟨"manifest rpc failed", false⟩ },
       [.manifestRPC i])
    | some m =>
      match linkAppHooksT root m.hooks with
      | some e => (root, { p with Error := some e }, [.manifestRPC i])
      | none =>
        let r := linkAppCmds root p.Path m.commands
        match r.2 with
        | some e => (r.1, { p with Error := some e }, [.manifestRPC i])
        | none => (r.1, p, [.manifestRPC i])

/-- The app-by-app loop of linkApps: a failure on one app does not prevent
the following apps from linking; an app that ends the pass with its Error
slot set is appended to the linkErrors collection (third component). -/
def linkAppsLoop (root : CTree) (env : LinkEnv) (i : Nat) :
    List App → CTree × List App × List App × List LKEv
  | [] => (root, [], [], [])
  | p :: rest =>
    let r := linkOneApp root env i p
    let rr := linkAppsLoop r.1 env (i + 1) rest
    (rr.1, r.2.1 :: rr.2.1,
     (if r.2.1.Error.isSome then [r.2.1] else []) ++ rr.2.2.1,
     r.2.2 ++ rr.2.2.2)

/-- UnloadApps of the app linker: KillClient on every app of the list, in
order, threading the shared reattachment cache. -/
def unloadLoop (i : Nat) (c : Cache) : List App → List App × Cache × List LKEv
  | [] => ([], c, [])
  | p :: rest =>
    let r := KillClient p c
    let rr := unloadLoop (i + 1) r.2 rest
    (r.1 :: rr.1, rr.2.1, .killAttempt i :: rr.2.2)

/-- UnloadApps of the app linker. -/
def UnloadApps (apps : List App) (c : Cache) : List App × Cache × List LKEv :=
  unloadLoop 0 c apps

/-- The status RPCs of the failure-path printApps: one Manifest RPC per app
whose Error slot is empty. -/
def printAppsTrace (i : Nat) : List App → List LKEv
  | [] => []
  | p :: rest =>
    (if p.Error.isSome then [] else [LKEv.statusRPC i]) ++ printAppsTrace (i + 1) rest

/-- Result of linkApps: the grafted tree, the apps (with link errors set,
and unloaded on failure), the cache, the trace and the combined error. -/
structure LinkResult where
  tree : CTree
  apps : List App
  cache : Cache
  trace : List LKEv
  err : Option GoErr

/-- linkApps of the app linker: every app is attempted; when at least one
failed, the apps are printed (status RPCs), a combined error naming each
failed app and its error is returned, and every app is unloaded (the
deferred UnloadApps iterates the same list that was linked, as in
LoadApps). -/
def linkApps (root : CTree) (apps : List App) (c : Cache) (env : LinkEnv) :
    LinkResult :=
  let r := linkAppsLoop root env 0 apps
  let linkErrors := r.2.2.1
  if linkErrors.isEmpty then ⟨r.1, r.2.1, c, r.2.2.2, none⟩
  else
    let u := UnloadApps r.2.1 c
    ⟨r.1, u.1, u.2.1, r.2.2.2 ++ printAppsTrace 0 r.2.1 ++ u.2.2,
     some ⟨"fail to link: "
       ++ linkErrors.foldl (fun acc q => acc ++ q.Path ++ ": " ++ errMsgOf q) "",
       false⟩⟩

/-- Position tag of an Update event. -/
def UEv.idx : UEv → Nat
  | .removeDir i => i
  | .cloned i => i

theorem cacheGet_deleteKey (k : String) (c : Cache) :
    cacheGet k (cacheDeleteKey k c) = none := by
  induction c with
  | nil => rfl
  | cons e rest ih =>
    simp only [cacheDeleteKey] at ih ⊢
    by_cases h : e.1 = k
    · rw [List.filter_cons_of_neg (by simpa using h)]
      exact ih
    · rw [List.filter_cons_of_pos (by simpa using h)]
      simpa [cacheGet, h] using ih

theorem cacheGet_deleteKey_other (k k' : String) (c : Cache) (h : k' ≠ k) :
    cacheGet k' (cacheDeleteKey k c) = cacheGet k' c := by
  induction c with
  | nil => rfl
  | cons e rest ih =>
    simp only [cacheDeleteKey] at ih ⊢
    by_cases he : e.1 = k
    · rw [List.filter_cons_of_neg (by simpa using he)]
      have hne : ¬ e.1 = k' := by
        rw [he]; exact fun hx => h hx.symm
      simpa [cacheGet, hne] using ih
    · rw [List.filter_cons_of_pos (by simpa using he)]
      simp only [cacheGet]
      by_cases he' : e.1 = k'
      · simp [he']
      · simpa [he'] using ih

theorem cacheGet_cachePut_self (k : String) (v : ReattachConfig) (c : Cache) :
    cacheGet k (cachePut k v c) = some v := by
  simp [cachePut, cacheGet]

theorem cacheGet_cachePut_other (k k' : String) (v : ReattachConfig) (c : Cache)
    (h : k' ≠ k) : cacheGet k' (cachePut k v c) = cacheGet k' c := by
  have hkk : ¬ (k = k') := fun hx => h hx.symm
  simp only [cachePut, cacheGet, hkk, if_false]
  exact cacheGet_deleteKey_other k k' c h

theorem fetch_ok_id (p : App) (ok : Bool)
    (h : (fetch p ok).1.Error = none) : (fetch p ok).1 = p := by
  unfold fetch at h ⊢
  by_cases h1 : isLocalPath p.Path = true
  · rw [if_pos h1]
  · rw [if_neg h1] at h ⊢
    by_cases h2 : p.Error.isSome = true
    · rw [if_pos h2]
    · rw [if_neg h2] at h ⊢
      by_cases h3 : ok = true
      · rw [if_pos h3]
      · rw [if_neg h3] at h
        simp at h

theorem build_ok_id (p : App) (mo bo : Bool)
    (h : (build p mo bo).1.Error = none) : (build p mo bo).1 = p := by
  unfold build at h ⊢
  by_cases h1 : p.Error.isSome = true
  · rw [if_pos h1]
  · rw [if_neg h1] at h ⊢
    by_cases h2 : ¬mo = true
    · rw [if_pos h2] at h
      simp at h
    · rw [if_neg h2] at h ⊢
      by_cases h3 : ¬bo = true
      · rw [if_pos h3] at h
        simp at h
      · rw [if_neg h3]

theorem fetch_trace (p : App) (ok : Bool) :
    ∀ x ∈ (fetch p ok).2, x = LEv.fetched := by
  unfold fetch
  split
  · simp
  · split
    · simp
    · split <;> simp

theorem build_trace_sub (p : App) (mo bo : Bool) :
    ∀ x ∈ (build p mo bo).2, x = LEv.built := by
  unfold build
  split
  · simp
  · split
    · simp
    · split <;> simp

theorem prepStep2_ok_id (p : App) (env : LoadEnv)
    (h : ((if isLocalPath p.Path = true then
        (if outdatedBinary (binaryPath p) env.files env.walkErr = true then
          build p env.modTidyOk env.buildOk else (p, []))
      else
        (if ¬binStat p env = true then build p env.modTidyOk env.buildOk
         else (p, []))).1.Error = none)) :
    (if isLocalPath p.Path = true then
        (if outdatedBinary (binaryPath p) env.files env.walkErr = true then
          build p env.modTidyOk env.buildOk else (p, []))
      else
        (if ¬binStat p env = true then build p env.modTidyOk env.buildOk
         else (p, []))).1 = p := by
  by_cases h1 : isLocalPath p.Path = true
  · rw [if_pos h1] at h ⊢
    by_cases h2 : outdatedBinary (binaryPath p) env.files env.walkErr = true
    · rw [if_pos h2] at h ⊢
      exact build_ok_id p env.modTidyOk env.buildOk h
    · rw [if_neg h2]
  · rw [if_neg h1] at h ⊢
    by_cases h2 : ¬binStat p env = true
    · rw [if_pos h2] at h ⊢
      exact build_ok_id p env.modTidyOk env.buildOk h
    · rw [if_neg h2]

theorem prepStep2_trace_sub (p : App) (env : LoadEnv) :
    ∀ x ∈ (if isLocalPath p.Path = true then
        (if outdatedBinary (binaryPath p) env.files env.walkErr = true then
          build p env.modTidyOk env.buildOk else (p, []))
      else
        (if ¬binStat p env = true then build p env.modTidyOk env.buildOk
         else (p, []))).2, x = LEv.built := by
  by_cases h1 : isLocalPath p.Path = true
  · rw [if_pos h1]
    by_cases h2 : outdatedBinary (binaryPath p) env.files env.walkErr = true
    · rw [if_pos h2]
      exact build_trace_sub p env.modTidyOk env.buildOk
    · rw [if_neg h2]
      simp
  · rw [if_neg h1]
    by_cases h2 : ¬binStat p env = true
    · rw [if_pos h2]
      exact build_trace_sub p env.modTidyOk env.buildOk
    · rw [if_neg h2]
      simp

theorem loadPrep_ok_id (p : App) (env : LoadEnv)
    (h : (loadPrep p env).1.Error = none) : (loadPrep p env).1 = p := by
  unfold loadPrep at h ⊢
  rcases hf : (if ¬env.srcExists = true then fetch p env.cloneOk else (p, [])) with ⟨p1, t1⟩
  rw [hf] at h
  dsimp only at h ⊢
  by_cases he1 : p1.Error.isSome = true
  · rw [if_pos he1] at h ⊢
    simp only at h
    rw [h] at he1
    simp at he1
  · rw [if_neg he1] at h ⊢
    have hp1 : p1 = p := by
      by_cases hs : ¬env.srcExists = true
      · rw [if_pos hs] at hf
        have h0 : (fetch p env.cloneOk).1.Error = none := by
          rw [hf]
          simpa using he1
        have h2 := fetch_ok_id p env.cloneOk h0
        rw [hf] at h2
        exact h2
      · rw [if_neg hs] at hf
        injection hf with e1 e2
        exact e1.symm
    subst hp1
    rcases hb : (if isLocalPath p1.Path = true then
        (if outdatedBinary (binaryPath p1) env.files env.walkErr = true then
          build p1 env.modTidyOk env.buildOk else (p1, []))
      else
        (if ¬binStat p1 env = true then build p1 env.modTidyOk env.buildOk
         else (p1, []))) with ⟨p2, t2⟩
    rw [hb] at h
    dsimp only at h ⊢
    have h3 := prepStep2_ok_id p1 env (by rw [hb]; exact h)
    rw [hb] at h3
    exact h3

theorem loadPrep_trace_sub (p : App) (env : LoadEnv) :
    ∀ x ∈ (loadPrep p env).2, x = LEv.fetched ∨ x = LEv.built := by
  unfold loadPrep
  rcases hf : (if ¬env.srcExists = true then fetch p env.cloneOk else (p, [])) with ⟨p1, t1⟩
  dsimp only
  have ht1 : ∀ x ∈ t1, x = LEv.fetched := by
    by_cases hs : ¬env.srcExists = true
    · rw [if_pos hs] at hf
      intro x hx
      exact fetch_trace p env.cloneOk x (by rw [hf]; exact hx)
    · rw [if_neg hs] at hf
      injection hf with e1 e2
      rw [← e2]
      simp
  by_cases he1 : p1.Error.isSome = true
  · rw [if_pos he1]
    intro x hx
    exact Or.inl (ht1 x hx)
  · rw [if_neg he1]
    rcases hb : (if isLocalPath p1.Path = true then
        (if outdatedBinary (binaryPath p1) env.files env.walkErr = true then
          build p1 env.modTidyOk env.buildOk else (p1, []))
      else
        (if ¬binStat p1 env = true then build p1 env.modTidyOk env.buildOk
         else (p1, []))) with ⟨p2, t2⟩
    dsimp only
    have ht2 : ∀ x ∈ t2, x = LEv.built := by
      intro x hx
      exact prepStep2_trace_sub p1 env x (by rw [hb]; exact hx)
    intro x hx
    simp only [List.mem_append] at hx
    rcases hx with hx | hx
    · exact Or.inl (ht1 x hx)
    · exact Or.inr (ht2 x hx)

theorem fetch_frame (p : App) (ok : Bool) :
    (fetch p ok).1.isHost = p.isHost ∧ (fetch p ok).1.Path = p.Path := by
  unfold fetch
  split
  · exact ⟨rfl, rfl⟩
  · split
    · exact ⟨rfl, rfl⟩
    · split <;> exact ⟨rfl, rfl⟩

theorem build_frame (p : App) (mo bo : Bool) :
    (build p mo bo).1.isHost = p.isHost ∧ (build p mo bo).1.Path = p.Path := by
  unfold build
  split
  · exact ⟨rfl, rfl⟩
  · split
    · exact ⟨rfl, rfl⟩
    · split <;> exact ⟨rfl, rfl⟩

theorem loadPrep_frame (p : App) (env : LoadEnv) :
    (loadPrep p env).1.isHost = p.isHost ∧ (loadPrep p env).1.Path = p.Path := by
  unfold loadPrep
  by_cases hs : ¬env.srcExists = true
  · rw [if_pos hs]
    have hf := fetch_frame p env.cloneOk
    by_cases he : (fetch p env.cloneOk).1.Error.isSome = true
    · rw [if_pos he]
      exact hf
    · rw [if_neg he]
      dsimp only
      by_cases hl : isLocalPath (fetch p env.cloneOk).1.Path = true
      · rw [if_pos hl]
        by_cases ho : outdatedBinary (binaryPath (fetch p env.cloneOk).1) env.files env.walkErr = true
        · rw [if_pos ho]
          have hb := build_frame (fetch p env.cloneOk).1 env.modTidyOk env.buildOk
          exact ⟨hb.1.trans hf.1, hb.2.trans hf.2⟩
        · rw [if_neg ho]
          exact hf
      · rw [if_neg hl]
        by_cases hbs : ¬binStat (fetch p env.cloneOk).1 env = true
        · rw [if_pos hbs]
          have hb := build_frame (fetch p env.cloneOk).1 env.modTidyOk env.buildOk
          exact ⟨hb.1.trans hf.1, hb.2.trans hf.2⟩
        · rw [if_neg hbs]
          exact hf
  · rw [if_neg hs]
    by_cases he : (p, ([] : List LEv)).1.Error.isSome = true
    · rw [if_pos he]
      exact ⟨rfl, rfl⟩
    · rw [if_neg he]
      dsimp only
      by_cases hl : isLocalPath p.Path = true
      · rw [if_pos hl]
        by_cases ho : outdatedBinary (binaryPath p) env.files env.walkErr = true
        · rw [if_pos ho]
          exact build_frame p env.modTidyOk env.buildOk
        · rw [if_neg ho]
          exact ⟨rfl, rfl⟩
      · rw [if_neg hl]
        by_cases hbs : ¬binStat p env = true
        · rw [if_pos hbs]
          exact build_frame p env.modTidyOk env.buildOk
        · rw [if_neg hbs]
          exact ⟨rfl, rfl⟩

theorem writeConfigCache_ok_inv (ok : Bool) (path : String) (conf : ReattachConfig)
    (c c1 : Cache) (h : writeConfigCache ok path conf c = .ok c1) :
    path ≠ "" ∧ c1 = cachePut path conf c := by
  unfold writeConfigCache at h
  by_cases h1 : path = ""
  · rw [if_pos h1] at h
    cases h
  · rw [if_neg h1] at h
    by_cases h2 : ok = true
    · rw [if_pos h2] at h
      cases h
      exact ⟨h1, rfl⟩
    · rw [if_neg h2] at h
      cases h

theorem loadHandshake_cases (p : App) (conf : ReattachConfig) (c : Cache)
    (env : LoadEnv) :
    ((loadHandshake p conf c env).2.1 = c
      ∧ (loadHandshake p conf c env).1.isHost = p.isHost
      ∧ (loadHandshake p conf c env).1.Path = p.Path)
    ∨ (checkConfCache p.Path c = false ∧ p.Path ≠ ""
      ∧ (loadHandshake p conf c env).2.1 = cachePut p.Path conf c
      ∧ (loadHandshake p conf c env).1.isHost = true
      ∧ (loadHandshake p conf c env).1.Path = p.Path) := by
  unfold loadHandshake
  by_cases h1 : ¬env.connectOk = true
  · rw [if_pos h1]
    exact Or.inl ⟨rfl, rfl, rfl⟩
  · rw [if_neg h1]
    by_cases h2 : ¬env.dispenseOk = true
    · rw [if_pos h2]
      exact Or.inl ⟨rfl, rfl, rfl⟩
    · rw [if_neg h2]
      cases hm : env.manifest with
      | none => exact Or.inl ⟨rfl, rfl, rfl⟩
      | some m =>
        dsimp only
        by_cases h3 : (m.sharedHost && !(checkConfCache p.Path c)) = true
        · rw [if_pos h3]
          cases hw : writeConfigCache env.writeCacheOk p.Path conf c with
          | error e =>
            dsimp only
            exact Or.inl ⟨rfl, rfl, rfl⟩
          | ok c1 =>
            dsimp only
            have hinv := writeConfigCache_ok_inv env.writeCacheOk p.Path conf c c1 hw
            refine Or.inr ⟨?_, hinv.1, hinv.2, rfl, rfl⟩
            simp only [Bool.and_eq_true, Bool.not_eq_true'] at h3
            exact h3.2
        · rw [if_neg h3]
          exact Or.inl ⟨rfl, rfl, rfl⟩

theorem loadConnect_cases (selfId : Nat) (p : App) (c : Cache) (env : LoadEnv) :
    ((loadConnect selfId p c env).2.1 = c
      ∧ (loadConnect selfId p c env).1.isHost = p.isHost
      ∧ (loadConnect selfId p c env).1.Path = p.Path)
    ∨ (checkConfCache p.Path c = false ∧ p.Path ≠ ""
      ∧ (loadConnect selfId p c env).2.1 = cachePut p.Path ⟨selfId⟩ c
      ∧ (loadConnect selfId p c env).1.isHost = true
      ∧ (loadConnect selfId p c env).1.Path = p.Path) := by
  unfold loadConnect
  by_cases hchk : checkConfCache p.Path c = true
  · rw [if_pos hchk]
    cases hr : readConfigCache env.readCacheOk p.Path c with
    | error e =>
      dsimp only
      exact Or.inl ⟨rfl, rfl, rfl⟩
    | ok conf =>
      dsimp only
      have hc := loadHandshake_cases { p with client := some ⟨conf, true⟩ } conf c env
      rcases hc with ⟨e1, e2, e3⟩ | ⟨e0, _, _, _, _⟩
      · exact Or.inl ⟨e1, e2, e3⟩
      · rw [show ({ p with client := some ⟨conf, true⟩ } : App).Path = p.Path from rfl,
            hchk] at e0
        cases e0
  · rw [if_neg hchk]
    dsimp only
    have hc := loadHandshake_cases
      { p with client := some ⟨(⟨selfId⟩ : ReattachConfig), true⟩ } ⟨selfId⟩ c env
    rcases hc with ⟨e1, e2, e3⟩ | ⟨e0, e1, e2, e3, e4⟩
    · exact Or.inl ⟨e1, e2, e3⟩
    · exact Or.inr ⟨e0, e1, e2, e3, e4⟩

theorem load_cases (selfId : Nat) (p : App) (c : Cache) (env : LoadEnv) :
    ((load selfId p c env).2.1 = c
      ∧ (load selfId p c env).1.isHost = p.isHost
      ∧ (load selfId p c env).1.Path = p.Path)
    ∨ (checkConfCache p.Path c = false ∧ p.Path ≠ ""
      ∧ (load selfId p c env).2.1 = cachePut p.Path ⟨selfId⟩ c
      ∧ (load selfId p c env).1.isHost = true
      ∧ (load selfId p c env).1.Path = p.Path) := by
  unfold load
  by_cases h0 : p.Error.isSome = true
  · rw [if_pos h0]
    exact Or.inl ⟨rfl, rfl, rfl⟩
  · rw [if_neg h0]
    dsimp only
    by_cases h1 : (loadPrep p env).1.Error.isSome = true
    · rw [if_pos h1]
      have hf := loadPrep_frame p env
      exact Or.inl ⟨rfl, hf.1, hf.2⟩
    · rw [if_neg h1]
      have hid : (loadPrep p env).1 = p := loadPrep_ok_id p env (by simpa using h1)
      rw [hid]
      dsimp only
      exact loadConnect_cases selfId p c env

theorem KillClient_cases (p : App) (c : Cache) :
    ((KillClient p c).2 = c ∧ (KillClient p c).1.isHost = p.isHost
      ∧ (KillClient p c).1.Path = p.Path)
    ∨ (p.isHost = true ∧ (KillClient p c).1.isHost = false
      ∧ (KillClient p c).1.Path = p.Path
      ∧ (KillClient p c).2
          = (if p.Path = "" then c else cacheDeleteKey p.Path c)) := by
  unfold KillClient
  by_cases h1 : (p.isSharedHost && !p.isHost) = true
  · rw [if_pos h1]
    exact Or.inl ⟨rfl, rfl, rfl⟩
  · rw [if_neg h1]
    cases hcl : p.client with
    | none =>
      dsimp only
      by_cases h2 : p.isHost = true
      · rw [if_pos h2]
        refine Or.inr ⟨h2, rfl, rfl, ?_⟩
        unfold deleteConfCache
        by_cases h3 : p.Path = ""
        · rw [if_pos h3, if_pos h3]
        · rw [if_neg h3, if_neg h3]
      · rw [if_neg h2]
        simp only [Bool.not_eq_true] at h2
        exact Or.inl ⟨rfl, h2.symm ▸ rfl, rfl⟩
    | some cl =>
      dsimp only
      by_cases h2 : p.isHost = true
      · rw [if_pos h2]
        refine Or.inr ⟨h2, rfl, rfl, ?_⟩
        unfold deleteConfCache
        by_cases h3 : p.Path = ""
        · rw [if_pos h3, if_pos h3]
        · rw [if_neg h3, if_neg h3]
      · rw [if_neg h2]
        simp only [Bool.not_eq_true] at h2
        exact Or.inl ⟨rfl, by rw [h2], rfl⟩

theorem countKey_deleteKey_self (k : String) (c : Cache) :
    countKey k (cacheDeleteKey k c) = 0 := by
  induction c with
  | nil => rfl
  | cons e rest ih =>
    by_cases h : e.1 = k
    · simp only [cacheDeleteKey, countKey] at ih ⊢
      rw [List.filter_cons_of_neg (by simpa using h)]
      exact ih
    · simp only [cacheDeleteKey, countKey] at ih ⊢
      rw [List.filter_cons_of_pos (by simpa using h)]
      rw [List.filter_cons_of_neg (by simpa using h)]
      exact ih

theorem countKey_deleteKey_other (k k' : String) (c : Cache) (h : k' ≠ k) :
    countKey k' (cacheDeleteKey k c) = countKey k' c := by
  induction c with
  | nil => rfl
  | cons e rest ih =>
    simp only [cacheDeleteKey, countKey] at ih ⊢
    by_cases he : e.1 = k
    · rw [List.filter_cons_of_neg (by simpa using he)]
      have hne : ¬ e.1 = k' := by rw [he]; exact fun hx => h hx.symm
      rw [List.filter_cons_of_neg (by simpa using hne)]
      exact ih
    · rw [List.filter_cons_of_pos (by simpa using he)]
      by_cases he' : e.1 = k'
      · rw [List.filter_cons_of_pos (by simpa using he'),
            List.filter_cons_of_pos (by simpa using he')]
        simpa using ih
      · rw [List.filter_cons_of_neg (by simpa using he'),
            List.filter_cons_of_neg (by simpa using he')]
        exact ih

theorem countKey_cachePut_self (k : String) (v : ReattachConfig) (c : Cache) :
    countKey k (cachePut k v c) = 1 := by
  simp only [cachePut, countKey]
  rw [List.filter_cons_of_pos (by simp)]
  have := countKey_deleteKey_self k c
  simp only [countKey] at this
  simp [this]

theorem countKey_cachePut_other (k k' : String) (v : ReattachConfig) (c : Cache)
    (h : k' ≠ k) : countKey k' (cachePut k v c) = countKey k' c := by
  simp only [cachePut, countKey]
  rw [List.filter_cons_of_neg (by simpa using fun hx : k = k' => h hx.symm)]
  have := countKey_deleteKey_other k k' c h
  simp only [countKey] at this
  exact this

theorem checkConfCache_false (path : String) (c : Cache) (hpath : path ≠ "")
    (h : checkConfCache path c = false) : cacheGet path c = none := by
  unfold checkConfCache at h
  rw [if_neg hpath] at h
  simpa using h

theorem checkConfCache_true (path : String) (c : Cache)
    (h : checkConfCache path c = true) : ∃ v, cacheGet path c = some v := by
  unfold checkConfCache at h
  by_cases hp : path = ""
  · rw [if_pos hp] at h
    cases h
  · rw [if_neg hp] at h
    exact Option.isSome_iff_exists.mp h

theorem hostInv_step (path : String) (hpath : path ≠ "") (s : Sys) (ev : SEv)
    (hinv : HostInv path s) : HostInv path (sysStep s ev) := by
  obtain ⟨hcount, hown, hhost⟩ := hinv
  cases ev with
  | loadEv i env =>
    unfold sysStep
    dsimp only
    cases hg : s.insts[i]? with
    | none => exact ⟨hcount, hown, hhost⟩
    | some p =>
      dsimp only
      have hilt : i < s.insts.length := (List.getElem?_eq_some.mp hg).1
      rcases load_cases i p s.cache env with ⟨e1, e2, e3⟩ | ⟨e0, epne, e1, e2, e3⟩
      · refine ⟨by rw [e1]; exact hcount, ?_, ?_⟩
        · intro d hd
          rw [e1] at hd
          obtain ⟨q, hq, hq2, hq3⟩ := hown d hd
          by_cases hdi : d.owner = i
          · refine ⟨(load i p s.cache env).1, ?_, ?_, ?_⟩
            · rw [hdi, List.getElem?_set_eq hilt]
            · rw [hdi, hg] at hq
              cases hq
              rw [e2]
              exact hq2
            · rw [hdi, hg] at hq
              cases hq
              rw [e3]
              exact hq3
          · exact ⟨q, by rw [List.getElem?_set_ne (Ne.symm hdi)]; exact hq, hq2, hq3⟩
        · intro j q hj hq2 hq3
          rw [e1]
          by_cases hji : j = i
          · subst hji
            rw [List.getElem?_set_eq hilt] at hj
            cases hj
            have hpH : p.isHost = true := by rw [← e2]; exact hq2
            have hpP : p.Path = path := by rw [← e3]; exact hq3
            exact hhost j p hg hpH hpP
          · rw [List.getElem?_set_ne (Ne.symm hji)] at hj
            exact hhost j q hj hq2 hq3
      · by_cases hpp : p.Path = path
        · have hget0 : cacheGet path s.cache = none :=
            checkConfCache_false path s.cache hpath (by rw [← hpp]; exact e0)
          refine ⟨?_, ?_, ?_⟩
          · rw [e1, hpp, countKey_cachePut_self]
          · intro d hd
            rw [e1, hpp, cacheGet_cachePut_self] at hd
            cases hd
            refine ⟨(load i p s.cache env).1, ?_, e2, by rw [e3]; exact hpp⟩
            exact List.getElem?_set_eq hilt
          · intro j q hj hq2 hq3
            rw [e1, hpp, cacheGet_cachePut_self]
            by_cases hji : j = i
            · subst hji
              rfl
            · rw [List.getElem?_set_ne (Ne.symm hji)] at hj
              have hc := hhost j q hj hq2 hq3
              rw [hget0] at hc
              cases hc
        · have hne : path ≠ p.Path := fun hx => hpp hx.symm
          refine ⟨?_, ?_, ?_⟩
          · rw [e1, countKey_cachePut_other p.Path path ⟨i⟩ s.cache hne]
            exact hcount
          · intro d hd
            rw [e1, cacheGet_cachePut_other p.Path path ⟨i⟩ s.cache hne] at hd
            obtain ⟨q, hq, hq2, hq3⟩ := hown d hd
            by_cases hdi : d.owner = i
            · rw [hdi, hg] at hq
              cases hq
              exact absurd hq3 hpp
            · exact ⟨q, by rw [List.getElem?_set_ne (Ne.symm hdi)]; exact hq, hq2, hq3⟩
          · intro j q hj hq2 hq3
            rw [e1, cacheGet_cachePut_other p.Path path ⟨i⟩ s.cache hne]
            by_cases hji : j = i
            · subst hji
              rw [List.getElem?_set_eq hilt] at hj
              cases hj
              rw [e3] at hq3
              exact absurd hq3 hpp
            · rw [List.getElem?_set_ne (Ne.symm hji)] at hj
              exact hhost j q hj hq2 hq3
  | killEv i =>
    unfold sysStep
    dsimp only
    cases hg : s.insts[i]? with
    | none => exact ⟨hcount, hown, hhost⟩
    | some p =>
      dsimp only
      have hilt : i < s.insts.length := (List.getElem?_eq_some.mp hg).1
      rcases KillClient_cases p s.cache with ⟨e1, e2, e3⟩ | ⟨hH, e2, e3, e1⟩
      · refine ⟨by rw [e1]; exact hcount, ?_, ?_⟩
        · intro d hd
          rw [e1] at hd
          obtain ⟨q, hq, hq2, hq3⟩ := hown d hd
          by_cases hdi : d.owner = i
          · refine ⟨(KillClient p s.cache).1, ?_, ?_, ?_⟩
            · rw [hdi, List.getElem?_set_eq hilt]
            · rw [hdi, hg] at hq
              cases hq
              rw [e2]
              exact hq2
            · rw [hdi, hg] at hq
              cases hq
              rw [e3]
              exact hq3
          · exact ⟨q, by rw [List.getElem?_set_ne (Ne.symm hdi)]; exact hq, hq2, hq3⟩
        · intro j q hj hq2 hq3
          rw [e1]
          by_cases hji : j = i
          · subst hji
            rw [List.getElem?_set_eq hilt] at hj
            cases hj
            have hpH : p.isHost = true := by rw [← e2]; exact hq2
            have hpP : p.Path = path := by rw [← e3]; exact hq3
            exact hhost j p hg hpH hpP
          · rw [List.getElem?_set_ne (Ne.symm hji)] at hj
            exact hhost j q hj hq2 hq3
      · by_cases hpp : p.Path = path
        · have hne0 : ¬(p.Path = "") := by rw [hpp]; exact hpath
          rw [if_neg hne0] at e1
          refine ⟨?_, ?_, ?_⟩
          · rw [e1, hpp, countKey_deleteKey_self]
            exact Nat.zero_le 1
          · intro d hd
            rw [e1, hpp, cacheGet_deleteKey] at hd
            cases hd
          · intro j q hj hq2 hq3
            by_cases hji : j = i
            · subst hji
              rw [List.getElem?_set_eq hilt] at hj
              cases hj
              rw [e2] at hq2
              cases hq2
            · rw [List.getElem?_set_ne (Ne.symm hji)] at hj
              have h1 := hhost j q hj hq2 hq3
              have h2 := hhost i p hg hH hpp
              rw [h1] at h2
              have h3 : j = i := congrArg ReattachConfig.owner (Option.some.inj h2)
              exact absurd h3 hji
        · have hcg : cacheGet path (KillClient p s.cache).2 = cacheGet path s.cache := by
            by_cases hpe : p.Path = ""
            · rw [if_pos hpe] at e1
              rw [e1]
            · rw [if_neg hpe] at e1
              rw [e1]
              exact cacheGet_deleteKey_other p.Path path s.cache (fun hx => hpp hx.symm)
          have hck : countKey path (KillClient p s.cache).2 = countKey path s.cache := by
            by_cases hpe : p.Path = ""
            · rw [if_pos hpe] at e1
              rw [e1]
            · rw [if_neg hpe] at e1
              rw [e1]
              exact countKey_deleteKey_other p.Path path s.cache (fun hx => hpp hx.symm)
          refine ⟨by rw [hck]; exact hcount, ?_, ?_⟩
          · intro d hd
            rw [hcg] at hd
            obtain ⟨q, hq, hq2, hq3⟩ := hown d hd
            by_cases hdi : d.owner = i
            · rw [hdi, hg] at hq
              cases hq
              exact absurd hq3 hpp
            · exact ⟨q, by rw [List.getElem?_set_ne (Ne.symm hdi)]; exact hq, hq2, hq3⟩
          · intro j q hj hq2 hq3
            rw [hcg]
            by_cases hji : j = i
            · subst hji
              rw [List.getElem?_set_eq hilt] at hj
              cases hj
              rw [e2] at hq2
              cases hq2
            · rw [List.getElem?_set_ne (Ne.symm hji)] at hj
              exact hhost j q hj hq2 hq3

theorem hostInv_run (path : String) (hpath : path ≠ "") (s : Sys) (evs : List SEv)
    (hinv : HostInv path s) : HostInv path (sysRun s evs) := by
  induction evs generalizing s with
  | nil => exact hinv
  | cons ev rest ih =>
    exact ih (sysStep s ev) (hostInv_step path hpath s ev hinv)

theorem readConfigCache_ok (getOk : Bool) (path : String) (c : Cache)
    (v : ReattachConfig) (hp : path ≠ "") (hg : getOk = true)
    (hv : cacheGet path c = some v) :
    readConfigCache getOk path c = .ok v := by
  unfold readConfigCache
  rw [if_neg hp, hg, hv]
  simp

theorem writeConfigCache_ok (putOk : Bool) (path : String) (conf : ReattachConfig)
    (c : Cache) (hp : path ≠ "") (hw : putOk = true) :
    writeConfigCache putOk path conf c = .ok (cachePut path conf c) := by
  unfold writeConfigCache
  rw [if_neg hp, hw]
  simp

theorem loadHandshake_success_miss (p : App) (conf : ReattachConfig) (c : Cache)
    (env : LoadEnv) (m : GoManifest)
    (hc : env.connectOk = true) (hd : env.dispenseOk = true)
    (hm : env.manifest = some m) (hsh : m.sharedHost = true)
    (hw : env.writeCacheOk = true) (hp : p.Path ≠ "")
    (hchk : checkConfCache p.Path c = false) :
    (loadHandshake p conf c env).1.isHost = true
    ∧ (loadHandshake p conf c env).2.1 = cachePut p.Path conf c
    ∧ (loadHandshake p conf c env).2.2
        = [.connected, .dispensed, .manifestRPC, .published] := by
  unfold loadHandshake
  rw [hc, hd, hm]
  dsimp only
  rw [if_neg (by simp)]
  rw [if_neg (by simp)]
  rw [if_pos (by simp [hsh, hchk])]
  rw [writeConfigCache_ok env.writeCacheOk p.Path conf c hp hw]
  exact ⟨rfl, rfl, rfl⟩

theorem loadHandshake_success_hit (p : App) (conf : ReattachConfig) (c : Cache)
    (env : LoadEnv) (m : GoManifest)
    (hc : env.connectOk = true) (hd : env.dispenseOk = true)
    (hm : env.manifest = some m)
    (hchk : checkConfCache p.Path c = true) :
    (loadHandshake p conf c env).1.isHost = p.isHost
    ∧ (loadHandshake p conf c env).2.1 = c
    ∧ (loadHandshake p conf c env).2.2 = [.connected, .dispensed, .manifestRPC] := by
  unfold loadHandshake
  rw [hc, hd, hm]
  dsimp only
  rw [if_neg (by simp)]
  rw [if_neg (by simp)]
  rw [if_neg (by simp [hchk])]
  exact ⟨rfl, rfl, rfl⟩

/-- C1: when the fetched manifest declares shared hosting and the load
reaches the handshake successfully, load publishes this connection's
reattachment descriptor under the app path and sets isHost exactly when no
cache entry existed for the app path; a loader that found a cache entry
reattaches and never becomes host.  Moreover, over any sequence of load and
KillClient events, at most one cache entry is stored under a given app
reference and it is owned by exactly the instance whose isHost flag is
set. -/
theorem C1_shared_host_publication :
    (∀ (selfId : Nat) (p : App) (c : Cache) (env : LoadEnv) (m : GoManifest),
      p.Error = none → p.isHost = false → p.Path ≠ "" →
      (loadPrep p env).1.Error = none →
      env.connectOk = true → env.dispenseOk = true →
      env.manifest = some m → m.sharedHost = true →
      env.readCacheOk = true → env.writeCacheOk = true →
      ((checkConfCache p.Path c = false →
          (load selfId p c env).1.isHost = true ∧
          cacheGet p.Path (load selfId p c env).2.1 = some ⟨selfId⟩ ∧
          LEv.published ∈ (load selfId p c env).2.2 ∧
          LEv.launched ∈ (load selfId p c env).2.2) ∧
       (checkConfCache p.Path c = true →
          (load selfId p c env).1.isHost = false ∧
          (load selfId p c env).2.1 = c ∧
          LEv.reattached ∈ (load selfId p c env).2.2 ∧
          LEv.published ∉ (load selfId p c env).2.2))) ∧
    (∀ (path : String) (s : Sys) (evs : List SEv),
      path ≠ "" → HostInv path s → HostInv path (sysRun s evs)) := by
  constructor
  · intro selfId p c env m hErr hHost hp hprep hc hd hm hsh hr hw
    have hprep1 : (loadPrep p env).1 = p := loadPrep_ok_id p env hprep
    have hload : load selfId p c env
        = ((loadConnect selfId p c env).1,
           (loadConnect selfId p c env).2.1,
           (loadPrep p env).2 ++ (loadConnect selfId p c env).2.2) := by
      unfold load
      rw [hErr]
      dsimp only
      rw [hprep]
      simp only [Option.isSome_none, Bool.false_eq_true, if_false]
      rw [hprep1]
    constructor
    · intro hchk
      have hh := loadHandshake_success_miss
        { p with client := some ⟨(⟨selfId⟩ : ReattachConfig), true⟩ }
        ⟨selfId⟩ c env m hc hd hm hsh hw hp hchk
      have hlc : (loadConnect selfId p c env).1.isHost = true
          ∧ (loadConnect selfId p c env).2.1 = cachePut p.Path ⟨selfId⟩ c
          ∧ (loadConnect selfId p c env).2.2
              = .launched :: [.connected, .dispensed, .manifestRPC, .published] := by
        unfold loadConnect
        rw [if_neg (by simp [hchk])]
        dsimp only
        exact ⟨hh.1, hh.2.1, by rw [hh.2.2]⟩
      rw [hload]
      refine ⟨hlc.1, ?_, ?_, ?_⟩
      · rw [hlc.2.1]
        exact cacheGet_cachePut_self p.Path ⟨selfId⟩ c
      · rw [hlc.2.2]
        simp
      · rw [hlc.2.2]
        simp
    · intro hchk
      obtain ⟨v, hv⟩ := checkConfCache_true p.Path c hchk
      have hh := loadHandshake_success_hit
        { p with client := some ⟨v, true⟩ } v c env m hc hd hm hchk
      have hlc : (loadConnect selfId p c env).1.isHost = p.isHost
          ∧ (loadConnect selfId p c env).2.1 = c
          ∧ (loadConnect selfId p c env).2.2
              = .reattached :: [.connected, .dispensed, .manifestRPC] := by
        unfold loadConnect
        rw [if_pos hchk]
        rw [readConfigCache_ok env.readCacheOk p.Path c v hp hr hv]
        dsimp only
        exact ⟨hh.1, hh.2.1, by rw [hh.2.2]⟩
      rw [hload]
      refine ⟨by rw [hlc.1]; exact hHost, hlc.2.1, ?_, ?_⟩
      · rw [hlc.2.2]
        simp
      · rw [hlc.2.2]
        intro hmem
        rcases List.mem_append.mp hmem with hmem | hmem
        · rcases loadPrep_trace_sub p env _ hmem with h | h <;> cases h
        · simp at hmem
  · intro path s evs hpath hinv
    exact hostInv_run path hpath s evs hinv

/-- Witness for C1 at a concrete input: a single fresh loader of a
shared-host app with an empty cache becomes host, its descriptor is
published under its path, and the ownership invariant holds after the
event. -/
theorem C1_shared_host_publication_witness :
    (load 0 { Path := "x" } []
      { srcExists := true, cloneOk := true, files := [⟨".ign", false, 1⟩],
        walkErr := false, modTidyOk := true, buildOk := true, connectOk := true,
        dispenseOk := true, manifest := some ⟨"m", true, [], []⟩,
        readCacheOk := true, writeCacheOk := true }).1.isHost = true ∧
    cacheGet "x" (load 0 { Path := "x" } []
      { srcExists := true, cloneOk := true, files := [⟨".ign", false, 1⟩],
        walkErr := false, modTidyOk := true, buildOk := true, connectOk := true,
        dispenseOk := true, manifest := some ⟨"m", true, [], []⟩,
        readCacheOk := true, writeCacheOk := true }).2.1 = some ⟨0⟩ ∧
    HostInv "x" (sysRun ⟨[{ Path := "x" }], []⟩
      [SEv.loadEv 0
        { srcExists := true, cloneOk := true, files := [⟨".ign", false, 1⟩],
          walkErr := false, modTidyOk := true, buildOk := true, connectOk := true,
          dispenseOk := true, manifest := some ⟨"m", true, [], []⟩,
          readCacheOk := true, writeCacheOk := true }]) := by
  have h := C1_shared_host_publication
  have h1 := (h.1 0 { Path := "x" } []
      { srcExists := true, cloneOk := true, files := [⟨".ign", false, 1⟩],
        walkErr := false, modTidyOk := true, buildOk := true, connectOk := true,
        dispenseOk := true, manifest := some ⟨"m", true, [], []⟩,
        readCacheOk := true, writeCacheOk := true } ⟨"m", true, [], []⟩
      rfl rfl (by decide) (by decide) rfl rfl rfl rfl rfl rfl).1 (by decide)
  refine ⟨h1.1, h1.2.1, ?_⟩
  refine h.2 "x" ⟨[{ Path := "x" }], []⟩ _ (by decide) ?_
  refine ⟨by decide, ?_, ?_⟩
  · intro d hd
    simp [cacheGet] at hd
  · intro i q hj h2 h3
    cases i with
    | zero =>
      simp at hj
      rw [← hj] at h2
      cases h2
    | succ n =>
      simp at hj

/-- C6: KillClient on a shared-host app not owned by this instance changes
nothing (neither the app record nor the cache); on any other app it
terminates an existing client handle, and when this instance is the host it
deletes the cache entry for the app path and clears isHost; a non-host
never touches the cache; a second call changes nothing further; and a call
on an app that never successfully loaded (no client handle, not host)
changes nothing. -/
theorem C6_KillClient_frame (p : App) (c : Cache) :
    (p.isSharedHost = true → p.isHost = false → KillClient p c = (p, c)) ∧
    (∀ cl, (p.isSharedHost = false ∨ p.isHost = true) → p.client = some cl →
      (KillClient p c).1.client = some { cl with alive := false }) ∧
    (p.isHost = true → p.Path ≠ "" →
      cacheGet p.Path (KillClient p c).2 = none ∧ (KillClient p c).1.isHost = false) ∧
    (p.isHost = false → (KillClient p c).2 = c) ∧
    (KillClient (KillClient p c).1 (KillClient p c).2 = KillClient p c) ∧
    (p.client = none → p.isHost = false → KillClient p c = (p, c)) := by
  refine ⟨?_, ?_, ?_, ?_, ?_, ?_⟩
  · intro hs hh
    simp [KillClient, hs, hh]
  · intro cl hor hcl
    rcases hor with hs | hh
    · cases hh : p.isHost <;> simp [KillClient, hs, hh, hcl]
    · cases hs : p.isSharedHost <;> simp [KillClient, hs, hh, hcl]
  · intro hh hp
    cases hs : p.isSharedHost <;>
      cases hcl : p.client <;>
        simp [KillClient, hs, hh, hcl, deleteConfCache, hp, cacheGet_deleteKey]
  · intro hh
    cases hs : p.isSharedHost <;> cases hcl : p.client <;> simp [KillClient, hs, hh, hcl]
  · cases hs : p.isSharedHost <;> cases hh : p.isHost <;> cases hcl : p.client <;>
      by_cases hp : p.Path = "" <;>
      simp [KillClient, hs, hh, hcl, deleteConfCache, hp]
  · intro hcl hh
    cases hs : p.isSharedHost <;> simp [KillClient, hs, hh, hcl]

/-- Witness for C6 at concrete inputs: a shared non-owning instance is left
unchanged, and killing the host removes the cache entry for its path. -/
theorem C6_KillClient_frame_witness :
    KillClient
        { Path := "x", isSharedHost := true, isHost := false,
          client := some ⟨⟨7⟩, true⟩ }
        [("x", ⟨7⟩)]
      = ({ Path := "x", isSharedHost := true, isHost := false,
           client := some ⟨⟨7⟩, true⟩ }, [("x", ⟨7⟩)]) ∧
    cacheGet "x"
        (KillClient
          { Path := "x", isSharedHost := true, isHost := true,
            client := some ⟨⟨7⟩, true⟩ }
          [("x", ⟨7⟩)]).2
      = none :=
  ⟨(C6_KillClient_frame
      { Path := "x", isSharedHost := true, isHost := false,
        client := some ⟨⟨7⟩, true⟩ }
      [("x", ⟨7⟩)]).1 rfl rfl,
   ((C6_KillClient_frame
      { Path := "x", isSharedHost := true, isHost := true,
        client := some ⟨⟨7⟩, true⟩ }
      [("x", ⟨7⟩)]).2.2.1 rfl (by decide)).1⟩

theorem outdatedScan_fst (bin : String) (files : List FsEntry) (bt mr : Nat) :
    (outdatedScan bin files (bt, mr)).1 = (lastBinTime bin files).getD bt := by
  induction files generalizing bt mr with
  | nil => rfl
  | cons e rest ih =>
    by_cases hd : e.isDir
    · simp [outdatedScan, lastBinTime, hd, ih]
      cases h : lastBinTime bin rest <;> simp [h]
    · by_cases hb : e.path = bin
      · simp [outdatedScan, lastBinTime, hd, hb, ih]
        cases h : lastBinTime bin rest <;> simp
      · simp [outdatedScan, lastBinTime, hd, hb, ih]
        split <;> · simp [ih]
                    cases h : lastBinTime bin rest <;> simp [h]

theorem outdatedScan_snd (bin : String) (files : List FsEntry) (bt mr : Nat) :
    (outdatedScan bin files (bt, mr)).2
      = files.foldl
          (fun a e => if e.isDir ∨ e.path = bin then a else max a e.modTime) mr := by
  induction files generalizing bt mr with
  | nil => rfl
  | cons e rest ih =>
    by_cases hd : e.isDir
    · simp [outdatedScan, hd, ih]
    · by_cases hb : e.path = bin
      · simp [outdatedScan, hd, hb, ih]
      · simp only [outdatedScan, List.foldl_cons]
        rw [if_neg (by simp [hd]), if_neg (by simp [hb])]
        rw [show (if e.isDir = true ∨ e.path = bin then mr else max mr e.modTime)
              = max mr e.modTime by simp [hd, hb]]
        split <;> rw [ih] <;> congr 1 <;> omega

theorem outdatedBinary_eq (bin : String) (files : List FsEntry) :
    outdatedBinary bin files false
      = Nat.blt ((lastBinTime bin files).getD 0)
          (files.foldl
            (fun a e => if e.isDir ∨ e.path = bin then a else max a e.modTime) 0) := by
  simp only [outdatedBinary, Bool.false_eq_true, if_false]
  have h1 := outdatedScan_fst bin files 0 0
  have h2 := outdatedScan_snd bin files 0 0
  rcases hscan : outdatedScan bin files (0, 0) with ⟨bt, mr⟩
  rw [hscan] at h1 h2
  simp only at h1 h2
  rw [h1, h2]

theorem lt_foldlMax_iff (bin : String) (files : List FsEntry) (k a : Nat) :
    (k < files.foldl
        (fun a e => if e.isDir ∨ e.path = bin then a else max a e.modTime) a)
      ↔ (k < a ∨ ∃ e ∈ files, ¬e.isDir ∧ e.path ≠ bin ∧ k < e.modTime) := by
  induction files generalizing a with
  | nil => simp
  | cons e rest ih =>
    rw [List.foldl_cons]
    by_cases hskip : e.isDir = true ∨ e.path = bin
    · rw [show (if e.isDir = true ∨ e.path = bin then a else max a e.modTime) = a
          from if_pos hskip]
      rw [ih]
      constructor
      · rintro (h | ⟨f, hf, h1, h2, h3⟩)
        · exact Or.inl h
        · exact Or.inr ⟨f, List.mem_cons_of_mem _ hf, h1, h2, h3⟩
      · rintro (h | ⟨f, hf, h1, h2, h3⟩)
        · exact Or.inl h
        · rcases List.mem_cons.mp hf with rfl | hf'
          · rcases hskip with hd | hb
            · exact absurd hd (by simpa using h1)
            · exact absurd hb h2
          · exact Or.inr ⟨f, hf', h1, h2, h3⟩
    · push_neg at hskip
      rw [show (if e.isDir = true ∨ e.path = bin then a else max a e.modTime)
            = max a e.modTime from if_neg (by simp [hskip.1, hskip.2])]
      rw [ih]
      constructor
      · rintro (h | ⟨f, hf, h1, h2, h3⟩)
        · rcases lt_max_iff.mp h with h' | h'
          · exact Or.inl h'
          · exact Or.inr ⟨e, List.mem_cons_self _ _, by simp [hskip.1], hskip.2, h'⟩
        · exact Or.inr ⟨f, List.mem_cons_of_mem _ hf, h1, h2, h3⟩
      · rintro (h | ⟨f, hf, h1, h2, h3⟩)
        · exact Or.inl (lt_max_iff.mpr (Or.inl h))
        · rcases List.mem_cons.mp hf with rfl | hf'
          · exact Or.inl (lt_max_iff.mpr (Or.inr h3))
          · exact Or.inr ⟨f, hf', h1, h2, h3⟩

theorem lastBinTime_eq_none (bin : String) (files : List FsEntry)
    (h : ∀ e ∈ files, e.isDir ∨ e.path ≠ bin) : lastBinTime bin files = none := by
  induction files with
  | nil => rfl
  | cons e rest ih =>
    have he := h e (List.mem_cons_self _ _)
    have hr := ih (fun f hf => h f (List.mem_cons_of_mem _ hf))
    simp only [lastBinTime, hr]
    rcases he with hd | hb
    · simp [hd]
    · simp [hb]

theorem lastBinTime_eq_some (bin : String) (files : List FsEntry) (tb : Nat)
    (hex : ∃ e ∈ files, ¬e.isDir ∧ e.path = bin)
    (hall : ∀ e ∈ files, ¬e.isDir → e.path = bin → e.modTime = tb) :
    lastBinTime bin files = some tb := by
  induction files with
  | nil => simp at hex
  | cons e rest ih =>
    by_cases hrex : ∃ f ∈ rest, ¬f.isDir ∧ f.path = bin
    · have := ih hrex (fun f hf => hall f (List.mem_cons_of_mem _ hf))
      simp only [lastBinTime, this]
    · have hnone : lastBinTime bin rest = none := by
        apply lastBinTime_eq_none
        intro f hf
        by_contra hc
        push_neg at hc
        exact hrex ⟨f, hf, by tauto, by tauto⟩
      rcases hex with ⟨f, hf, h1, h2⟩
      rcases List.mem_cons.mp hf with rfl | hf'
      · simp only [lastBinTime, hnone]
        rw [if_pos ⟨by simpa using h1, h2⟩]
        rw [hall f hf h1 h2]
      · exact absurd ⟨f, hf', h1, h2⟩ hrex

theorem built_notin_loadHandshake (p : App) (conf : ReattachConfig) (c : Cache)
    (env : LoadEnv) : LEv.built ∉ (loadHandshake p conf c env).2.2 := by
  unfold loadHandshake
  repeat' split
  all_goals (try simp)
  all_goals (repeat' split)
  all_goals simp

theorem built_notin_loadConnect (selfId : Nat) (p : App) (c : Cache) (env : LoadEnv) :
    LEv.built ∉ (loadConnect selfId p c env).2.2 := by
  unfold loadConnect
  split
  · cases hread : readConfigCache env.readCacheOk p.Path c with
    | error e => simp [hread]
    | ok conf =>
      simp only [hread]
      rcases hh : loadHandshake { p with client := some ⟨conf, true⟩ } conf c env
        with ⟨p2, c2, t2⟩
      have hb := built_notin_loadHandshake { p with client := some ⟨conf, true⟩ } conf c env
      rw [hh] at hb
      simp only [hh]
      simpa using hb
  · rcases hh : loadHandshake { p with client := some ⟨(⟨selfId⟩ : ReattachConfig), true⟩ }
        ⟨selfId⟩ c env with ⟨p2, c2, t2⟩
    have hb := built_notin_loadHandshake
      { p with client := some ⟨(⟨selfId⟩ : ReattachConfig), true⟩ } ⟨selfId⟩ c env
    rw [hh] at hb
    simp only [hh]
    simpa using hb

theorem loadPrep_eq (p : App) (env : LoadEnv)
    (hErr : p.Error = none) (hsrc : env.srcExists = true) :
    loadPrep p env =
      (if (if isLocalPath p.Path then outdatedBinary (binaryPath p) env.files env.walkErr
           else !binStat p env) = true
       then build p env.modTidyOk env.buildOk else (p, [])) := by
  unfold loadPrep
  rw [hsrc]
  simp only [not_true, Bool.not_true, ite_false, if_false]
  rw [hErr]
  simp only [Option.isSome_none, Bool.false_eq_true, if_false]
  by_cases hloc : isLocalPath p.Path
  · rw [if_pos hloc]
    by_cases hout : outdatedBinary (binaryPath p) env.files env.walkErr
    · simp [hloc, hout]
    · simp [hloc, hout]
  · rw [if_neg (by simpa using hloc)]
    by_cases hstat : binStat p env
    · simp [hloc, hstat]
    · simp [hloc, hstat]

theorem build_trace (p : App) (mo bo : Bool) (hErr : p.Error = none) :
    (build p mo bo).2 = [LEv.built] := by
  unfold build
  rw [hErr]
  simp only [Option.isSome_none, Bool.false_eq_true, if_false]
  split <;> (try split) <;> simp

theorem built_mem_load_iff (selfId : Nat) (p : App) (c : Cache) (env : LoadEnv)
    (hErr : p.Error = none) (hsrc : env.srcExists = true) :
    (LEv.built ∈ (load selfId p c env).2.2
      ↔ (if isLocalPath p.Path then
           outdatedBinary (binaryPath p) env.files env.walkErr
         else !binStat p env) = true) := by
  unfold load
  rw [hErr]
  simp only [Option.isSome_none, Bool.false_eq_true, if_false]
  rw [loadPrep_eq p env hErr hsrc]
  by_cases hcond : (if isLocalPath p.Path then
      outdatedBinary (binaryPath p) env.files env.walkErr
    else !binStat p env) = true
  · rw [if_pos hcond]
    rcases hbs : build p env.modTidyOk env.buildOk with ⟨p1, t1⟩
    have ht1 : t1 = [LEv.built] := by
      have := build_trace p env.modTidyOk env.buildOk hErr
      rw [hbs] at this
      exact this
    subst ht1
    simp only [hcond, iff_true]
    by_cases he1 : p1.Error.isSome
    · simp [he1]
    · simp only [he1, Bool.false_eq_true, if_false]
      rcases hlc : loadConnect selfId p1 c env with ⟨p2, c2, t2⟩
      simp
  · rw [if_neg hcond]
    simp only [hcond, iff_false]
    rcases hlc : loadConnect selfId p c env with ⟨p2, c2, t2⟩
    have hb := built_notin_loadConnect selfId p c env
    rw [hlc] at hb
    simp only [hErr, Option.isSome_none, Bool.false_eq_true, if_false]
    simpa using hb

/-- C7 (amended): during load (source present, walk successful), a remote
app is built exactly when the binary stat fails, so a remote app whose
binary exists is never rebuilt even when other files are newer; a local app
is rebuilt exactly when some other regular file under the source path has a
modification time strictly later than the binary's, where an absent binary
counts as the zero time — in particular, when the binary is absent a
rebuild happens exactly when some other regular file has a positive
modification time (the original claim also required a rebuild when the
binary is absent and no other regular file exists, which load does not
do). -/
theorem C7_rebuild_policy (selfId : Nat) (p : App) (c : Cache) (env : LoadEnv)
    (hErr : p.Error = none) (hsrc : env.srcExists = true) (hwalk : env.walkErr = false) :
    (isLocalPath p.Path = false →
      (LEv.built ∈ (load selfId p c env).2.2 ↔ binStat p env = false)) ∧
    (isLocalPath p.Path = true →
      (∀ e ∈ env.files, e.isDir = true ∨ e.path ≠ binaryPath p) →
      (LEv.built ∈ (load selfId p c env).2.2
        ↔ ∃ e ∈ env.files, ¬e.isDir = true ∧ e.path ≠ binaryPath p ∧ 0 < e.modTime)) ∧
    (∀ tb : Nat, isLocalPath p.Path = true →
      (∃ e ∈ env.files, ¬e.isDir = true ∧ e.path = binaryPath p) →
      (∀ e ∈ env.files, ¬e.isDir = true → e.path = binaryPath p → e.modTime = tb) →
      (LEv.built ∈ (load selfId p c env).2.2
        ↔ ∃ e ∈ env.files, ¬e.isDir = true ∧ e.path ≠ binaryPath p ∧ tb < e.modTime)) := by
  have hmain := built_mem_load_iff selfId p c env hErr hsrc
  refine ⟨?_, ?_, ?_⟩
  · intro hloc
    rw [hmain, hloc]
    simp
  · intro hloc habs
    rw [hmain, hloc]
    rw [if_pos rfl, hwalk, outdatedBinary_eq]
    rw [lastBinTime_eq_none (binaryPath p) env.files habs]
    simp only [Option.getD_none, Nat.blt_eq]
    rw [lt_foldlMax_iff]
    simp
  · intro tb hloc hex hall
    rw [hmain, hloc]
    rw [if_pos rfl, hwalk, outdatedBinary_eq]
    rw [lastBinTime_eq_some (binaryPath p) env.files tb hex hall]
    simp only [Option.getD_some, Nat.blt_eq]
    rw [lt_foldlMax_iff]
    simp

/-- C7 counterexample: for a local app whose binary is absent while the walk
reports only the source directory itself (no other regular file), load does
not rebuild, although the claim requires a rebuild whenever the binary is
absent. -/
theorem C7_counterexample :
    isLocalPath "/l" = true ∧
    binStat { Path := "/l", srcPath := "/l", name := "l" }
      { srcExists := true, cloneOk := true, files := [⟨"/l", true, 5⟩],
        walkErr := false, modTidyOk := true, buildOk := true, connectOk := true,
        dispenseOk := true, manifest := some ⟨"l", false, [], []⟩,
        readCacheOk := true, writeCacheOk := true } = false ∧
    LEv.built ∉ (load 0 { Path := "/l", srcPath := "/l", name := "l" } []
      { srcExists := true, cloneOk := true, files := [⟨"/l", true, 5⟩],
        walkErr := false, modTidyOk := true, buildOk := true, connectOk := true,
        dispenseOk := true, manifest := some ⟨"l", false, [], []⟩,
        readCacheOk := true, writeCacheOk := true }).2.2 := by
  decide

/-- Witness for C7 at a concrete input: a remote app whose binary exists is
not rebuilt even though another source file is newer than the binary. -/
theorem C7_rebuild_policy_witness :
    LEv.built ∉ (load 0 { Path := "github.com/x/y", srcPath := "s", name := "n" } []
      { srcExists := true, cloneOk := true,
        files := [⟨"s/n.ign", false, 1⟩, ⟨"s/main.go", false, 9⟩],
        walkErr := false, modTidyOk := true, buildOk := true, connectOk := true,
        dispenseOk := true, manifest := some ⟨"n", false, [], []⟩,
        readCacheOk := true, writeCacheOk := true }).2.2 := by
  have h := (C7_rebuild_policy 0 { Path := "github.com/x/y", srcPath := "s", name := "n" } []
      { srcExists := true, cloneOk := true,
        files := [⟨"s/n.ign", false, 1⟩, ⟨"s/main.go", false, 9⟩],
        walkErr := false, modTidyOk := true, buildOk := true, connectOk := true,
        dispenseOk := true, manifest := some ⟨"n", false, [], []⟩,
        readCacheOk := true, writeCacheOk := true } rfl rfl rfl).1 rfl
  rw [h]
  decide

theorem splitLastChar_not_mem (sep : Char) (xs : List Char) (h : sep ∉ xs) :
    splitLastChar sep xs = none := by
  induction xs with
  | nil => rfl
  | cons x t ih =>
    simp only [List.mem_cons, not_or] at h
    unfold splitLastChar
    rw [ih h.2]
    rw [if_neg (fun he => h.1 he.symm)]

theorem splitLastChar_append (sep : Char) (a b : List Char) (h : sep ∉ b) :
    splitLastChar sep (a ++ sep :: b) = some (a, b) := by
  induction a with
  | nil =>
    show splitLastChar sep (sep :: b) = some ([], b)
    unfold splitLastChar
    rw [splitLastChar_not_mem sep b h]
    rw [if_pos rfl]
  | cons x t ih =>
    show splitLastChar sep (x :: (t ++ sep :: b)) = some (x :: t, b)
    unfold splitLastChar
    rw [ih]

/-- C8 (general form): for every remote reference of the form appPath at rev
whose revision rev contains a slash and no at-sign (so rev is exactly the
part after the last at-sign) and whose repository part has at least three
slash-separated segments, newApp extracts the revision intact, derives the
clone directory by joining appsDir with the three-segment repository path
and the revision with every slash replaced by a dash, derives the source
path as the clone directory joined with the in-repository subpath (the
segments beyond the third), takes the display name from the final segment
of the part before the at-sign, and stores a repository path that
round-trips to the original repoPath at revision form with the revision's
slashes intact. -/
theorem C8_revision_slash_roundtrip (appsDir appPath rev : String)
    (stat : StatResult)
    (hAt : ('@' : Char) ∉ rev.toList)
    (hSlash : ('/' : Char) ∈ rev.toList)
    (hRoot : strHasPrefix (appPath ++ "@" ++ rev) "/" = false)
    (hParts : 3 ≤ (stringSplit appPath '/').length) :
    (newApp appsDir (appPath ++ "@" ++ rev) stat).Error = none
    ∧ (newApp appsDir (appPath ++ "@" ++ rev) stat).reference = rev
    ∧ (newApp appsDir (appPath ++ "@" ++ rev) stat).repoPath
        = pathJoin ((stringSplit appPath '/').take 3) ++ "@" ++ rev
    ∧ (newApp appsDir (appPath ++ "@" ++ rev) stat).cloneDir
        = pathJoin [appsDir,
            pathJoin ((stringSplit appPath '/').take 3) ++ "-"
              ++ replaceAllChar rev '/' '-']
    ∧ (newApp appsDir (appPath ++ "@" ++ rev) stat).srcPath
        = pathJoin [(newApp appsDir (appPath ++ "@" ++ rev) stat).cloneDir,
            pathJoin ((stringSplit appPath '/').drop 3)]
    ∧ (newApp appsDir (appPath ++ "@" ++ rev) stat).name = pathBase appPath := by
  have hlist : (appPath ++ "@" ++ rev).toList
      = appPath.toList ++ '@' :: rev.toList := by
    simp [String.toList]
  have hne : ¬(appPath ++ "@" ++ rev = "") := by
    intro h0
    have := congrArg String.toList h0
    rw [hlist] at this
    simp at this
  have hsplit : splitLastChar '@' (appPath ++ "@" ++ rev).toList
      = some (appPath.toList, rev.toList) := by
    rw [hlist]
    exact splitLastChar_append '@' _ _ hAt
  have hpos : rev.length > 0 := by
    show rev.toList.length > 0
    exact List.length_pos.mpr (List.ne_nil_of_mem hSlash)
  unfold newApp
  rw [if_neg hne, hRoot]
  rw [if_neg (by simp)]
  rw [hsplit]
  dsimp only
  rw [show String.mk appPath.toList = appPath from rfl,
      show String.mk rev.toList = rev from rfl]
  rw [if_neg (show ¬(stringSplit appPath '/').length < 3 by omega)]
  dsimp only
  rw [if_pos hpos]
  dsimp only
  exact ⟨rfl, rfl, rfl, rfl, rfl, rfl⟩

/-- Witness for C8 at the concrete scenario-B input: the reference
github.com/ignite/app/app1 at revision package/v1.0.0 resolves to the clone
directory with the revision's slashes replaced by dashes, the source path
under it, display name app1, and a repository path carrying the revision
with its slashes intact. -/
theorem C8_revision_slash_roundtrip_witness :
    ("github.com/ignite/app/app1" ++ "@" ++ "package/v1.0.0" : String)
      = "github.com/ignite/app/app1@package/v1.0.0"
    ∧ (newApp ".ignite/apps" ("github.com/ignite/app/app1" ++ "@" ++ "package/v1.0.0")
        .missing).reference = "package/v1.0.0"
    ∧ (newApp ".ignite/apps" ("github.com/ignite/app/app1" ++ "@" ++ "package/v1.0.0")
        .missing).cloneDir = ".ignite/apps/github.com/ignite/app-package-v1.0.0"
    ∧ (newApp ".ignite/apps" ("github.com/ignite/app/app1" ++ "@" ++ "package/v1.0.0")
        .missing).srcPath = ".ignite/apps/github.com/ignite/app-package-v1.0.0/app1"
    ∧ (newApp ".ignite/apps" ("github.com/ignite/app/app1" ++ "@" ++ "package/v1.0.0")
        .missing).name = "app1"
    ∧ (newApp ".ignite/apps" ("github.com/ignite/app/app1" ++ "@" ++ "package/v1.0.0")
        .missing).repoPath = "github.com/ignite/app" ++ "@" ++ "package/v1.0.0" := by
  have h := C8_revision_slash_roundtrip ".ignite/apps" "github.com/ignite/app/app1"
    "package/v1.0.0" .missing (by decide) (by decide) (by decide) (by decide)
  exact ⟨by decide, h.2.1, by decide, by decide, by decide, by decide⟩

/-- C9: the PreRunE closure installed by linkAppHook invokes the prior
pre-phase first and only then ExecuteHookPre, so attaching two hooks to the
same command runs the first-registered hook's pre-phase first; a pre-phase
failure aborts the command before its body runs. -/
theorem C9_pre_phase_ordering :
    (∀ (a : String) (h1 h2 : Nat) (cmd : Cmd) (env : HookEnv),
      cmd.preRunE = none → env.chainPre = none →
      env.preRes h1 = none → env.preRes h2 = none →
      runPhase (linkAppHook a h2 (linkAppHook a h1 cmd)).preRunE env
        = ([.chainLookup, .hookPre h1, .chainLookup, .hookPre h2], none)) ∧
    (∀ (a : String) (hid : Nat) (cmd : Cmd) (env : HookEnv) (pr : Phase) (t : List HEv),
      cmd.preRunE = some pr → pr env = (t, none) → env.chainPre = none →
      env.preRes hid = none →
      runPhase (linkAppHook a hid cmd).preRunE env
        = (t ++ [.chainLookup, .hookPre hid], none)) ∧
    (∀ (a : String) (h1 h2 : Nat) (cmd : Cmd) (env : HookEnv) (e : GoErr),
      cmd.preRunE = none → env.chainPre = none → env.preRes h1 = some e →
      execCmdPhases (linkAppHook a h2 (linkAppHook a h1 cmd)) env
        = ([.chainLookup, .hookPre h1], some (wrapPreErr a e))) := by
  refine ⟨?_, ?_, ?_⟩
  · intro a h1 h2 cmd env hpre hchain hr1 hr2
    simp [linkAppHook, runPhase, hookPrePhase, preCall, hpre, hchain, hr1, hr2]
  · intro a hid cmd env pr t hpre hpr hchain hr
    simp [linkAppHook, runPhase, hookPrePhase, preCall, hpre, hpr, hchain, hr]
  · intro a h1 h2 cmd env e hpre hchain hr1
    simp [execCmdPhases, linkAppHook, runPhase, hookPrePhase, preCall, hpre, hchain, hr1]

/-- Witness for C9 at a concrete input: two hooks on a bare runnable
command produce the pre-phase trace in registration order. -/
theorem C9_pre_phase_ordering_witness :
    runPhase (linkAppHook "a" 2 (linkAppHook "a" 1
        { preRunE := none, runE := some (fun _ => ([HEv.bodyRun], none)),
          postRunE := none })).preRunE
      ⟨none, none, none, fun _ => none, fun _ => none, fun _ => none⟩
      = ([.chainLookup, .hookPre 1, .chainLookup, .hookPre 2], none) :=
  C9_pre_phase_ordering.1 "a" 1 2
    { preRunE := none, runE := some (fun _ => ([HEv.bodyRun], none)), postRunE := none }
    ⟨none, none, none, fun _ => none, fun _ => none, fun _ => none⟩
    rfl rfl rfl rfl

/-- C2 (amended): when the wrapped body fails and the chain-context lookup
in the body wrapper succeeds or fails with ErrGoModNotFound,
ExecuteHookCleanUp is invoked before the error is propagated, the
post-phase is skipped, and the body's original error is the one the command
returns — for every cleanup result, so a cleanup failure is never
propagated.  (The original claim is falsified by a chain-context lookup
failure, see the counterexample.) -/
theorem C2_body_failure_cleanup (a : String) (hid : Nat) (body : Phase)
    (env : HookEnv) (tb : List HEv) (e : GoErr)
    (hchainPre : env.chainPre = none) (hpre : env.preRes hid = none)
    (hchainRun : env.chainRun = none
      ∨ ∃ ce, env.chainRun = some ce ∧ ce.goModNotFound = true)
    (hbody : body env = (tb, some e))
    (hnopost : HEv.hookPost hid ∉ tb) :
    execCmdPhases
        (linkAppHook a hid { preRunE := none, runE := some body, postRunE := none }) env
      = ([HEv.chainLookup, HEv.hookPre hid]
          ++ (tb ++ [HEv.chainLookup, HEv.hookCleanUp hid]), some e)
    ∧ HEv.hookPost hid ∉
        (execCmdPhases
          (linkAppHook a hid { preRunE := none, runE := some body, postRunE := none })
          env).1 := by
  have hmain : execCmdPhases
      (linkAppHook a hid { preRunE := none, runE := some body, postRunE := none }) env
      = ([HEv.chainLookup, HEv.hookPre hid]
          ++ (tb ++ [HEv.chainLookup, HEv.hookCleanUp hid]), some e) := by
    rcases hchainRun with hcr | ⟨ce, hcr, hgm⟩
    · simp [execCmdPhases, linkAppHook, runPhase, hookPrePhase, preCall,
        hookRunPhase, runCleanUpCall, hchainPre, hpre, hcr, hbody]
    · simp [execCmdPhases, linkAppHook, runPhase, hookPrePhase, preCall,
        hookRunPhase, runCleanUpCall, hchainPre, hpre, hcr, hgm, hbody]
  refine ⟨hmain, ?_⟩
  rw [hmain]
  simp [hnopost]

/-- C2 counterexample: the wrapped body fails, but the chain-context lookup
in the body wrapper fails with an error that is not ErrGoModNotFound; the
command then returns the lookup error instead of the body's error and
ExecuteHookCleanUp is never invoked, contradicting the claim. -/
theorem C2_counterexample :
    ((fun _ => ([HEv.bodyRun], some ⟨"boom", false⟩)) : Phase)
        ⟨none, some ⟨"chain broken", false⟩, none,
          fun _ => none, fun _ => none, fun _ => none⟩
      = ([HEv.bodyRun], some ⟨"boom", false⟩) ∧
    (execCmdPhases
        (linkAppHook "myapp" 0
          { preRunE := none,
            runE := some (fun _ => ([HEv.bodyRun], some ⟨"boom", false⟩)),
            postRunE := none })
        ⟨none, some ⟨"chain broken", false⟩, none,
          fun _ => none, fun _ => none, fun _ => none⟩).2
      = some ⟨"chain broken", false⟩ ∧
    HEv.hookCleanUp 0 ∉
      (execCmdPhases
        (linkAppHook "myapp" 0
          { preRunE := none,
            runE := some (fun _ => ([HEv.bodyRun], some ⟨"boom", false⟩)),
            postRunE := none })
        ⟨none, some ⟨"chain broken", false⟩, none,
          fun _ => none, fun _ => none, fun _ => none⟩).1 := by
  refine ⟨rfl, rfl, ?_⟩
  decide

/-- Witness for C2 at a concrete input: a failing body with a healthy chain
lookup triggers cleanup and propagates the body's error even though the
cleanup itself fails. -/
theorem C2_body_failure_cleanup_witness :
    execCmdPhases
        (linkAppHook "myapp" 0
          { preRunE := none,
            runE := some (fun _ => ([HEv.bodyRun], some ⟨"boom", false⟩)),
            postRunE := none })
        ⟨none, none, none, fun _ => none, fun _ => none,
          fun _ => some ⟨"cleanup broken", false⟩⟩
      = ([HEv.chainLookup, HEv.hookPre 0]
          ++ ([HEv.bodyRun] ++ [HEv.chainLookup, HEv.hookCleanUp 0]),
         some ⟨"boom", false⟩) :=
  (C2_body_failure_cleanup "myapp" 0
    (fun _ => ([HEv.bodyRun], some ⟨"boom", false⟩))
    ⟨none, none, none, fun _ => none, fun _ => none,
      fun _ => some ⟨"cleanup broken", false⟩⟩
    [HEv.bodyRun] ⟨"boom", false⟩ rfl rfl (Or.inl rfl) rfl (by decide)).1

mutual

theorem modifyAt_find (parentPath target : String)
    (f : CTree → CTree × Option GoErr) (c : CTree) (node : CTree)
    (h : findCommandByPath parentPath target c = some node) :
    ∃ c2, modifyAt parentPath target f c = some (c2, (f node).2) := by
  match c with
  | .node u r cs =>
    unfold findCommandByPath at h
    unfold modifyAt
    by_cases hs : cmdPathOf parentPath u = target
    · rw [if_pos hs] at h ⊢
      cases h
      exact ⟨_, rfl⟩
    · rw [if_neg hs] at h ⊢
      obtain ⟨cs2, hcs⟩ := modifyChildren_find (cmdPathOf parentPath u) target f cs node h
      rw [hcs]
      exact ⟨.node u r cs2, rfl⟩

theorem modifyChildren_find (selfPath target : String)
    (f : CTree → CTree × Option GoErr) (cs : List CTree) (node : CTree)
    (h : findInChildren selfPath target cs = some node) :
    ∃ cs2, modifyChildren selfPath target f cs = some (cs2, (f node).2) := by
  match cs with
  | [] => exact absurd h (by simp [findInChildren])
  | c :: rest =>
    unfold findInChildren at h
    unfold modifyChildren
    cases hf : findCommandByPath selfPath target c with
    | some x =>
      rw [hf] at h
      cases h
      obtain ⟨c2, hc2⟩ := modifyAt_find selfPath target f c node hf
      rw [hc2]
      exact ⟨c2 :: rest, rfl⟩
    | none =>
      rw [hf] at h
      have hmc := modifyAt_none_of_find_none selfPath target f c hf
      rw [hmc]
      obtain ⟨cs2, hcs⟩ := modifyChildren_find selfPath target f rest node h
      rw [hcs]
      exact ⟨c :: cs2, rfl⟩

theorem modifyAt_none_of_find_none (selfPath target : String)
    (f : CTree → CTree × Option GoErr) (c : CTree)
    (hf : findCommandByPath selfPath target c = none) :
    modifyAt selfPath target f c = none := by
  match c with
  | .node u r cs =>
    unfold findCommandByPath at hf
    unfold modifyAt
    by_cases hs : cmdPathOf selfPath u = target
    · rw [if_pos hs] at hf
      cases hf
    · rw [if_neg hs] at hf ⊢
      rw [modifyChildren_none_of_find_none (cmdPathOf selfPath u) target f cs hf]

theorem modifyChildren_none_of_find_none (selfPath target : String)
    (f : CTree → CTree × Option GoErr) (cs : List CTree)
    (hf : findInChildren selfPath target cs = none) :
    modifyChildren selfPath target f cs = none := by
  match cs with
  | [] => rfl
  | c :: rest =>
    unfold findInChildren at hf
    unfold modifyChildren
    cases hfc : findCommandByPath selfPath target c with
    | some x =>
      rw [hfc] at hf
      cases hf
    | none =>
      rw [hfc] at hf
      rw [modifyAt_none_of_find_none selfPath target f c hfc]
      rw [modifyChildren_none_of_find_none selfPath target f rest hf]

end

/-- C5 (amended): whenever the node located at the descriptor attachment
path has a direct child whose name equals the descriptor first Use token,
linking the descriptor fails with the name collision error; this collision
check is local to the attachment node, so a descriptor named after a
legacy command elsewhere in the tree is not rejected by it and can link
without error when nested under a distinct parent (see the counterexample
for the original claim). -/
theorem C5_name_collision (root : CTree) (appPath : String) (ac : ACmd)
    (node : CTree)
    (hfind : findCommandByPath "" (commandPath ac.placeCommandUnder) root = some node)
    (hrun : node.runnable = false)
    (hcol : (node.children.map CTree.name).contains (cobraName ac.use) = true) :
    (linkAppCmd root appPath ac).2
      = some ⟨"app command " ++ cobraName ac.use
          ++ " already exists in Ignite commands", false⟩ := by
  unfold linkAppCmd
  dsimp only
  obtain ⟨c2, hc2⟩ := modifyAt_find "" (commandPath ac.placeCommandUnder)
    (attachAppCmd ac) root node hfind
  rw [hc2]
  show (attachAppCmd ac node).2 = _
  unfold attachAppCmd
  rw [if_neg (by simp [hrun]), if_pos hcol]

/-- C5 counterexample: the command descriptor named scaffold collides with
the legacy scaffold command (a child of the root), yet linking it under the
distinct parent "ignite other" succeeds, because the collision check only
inspects the direct children of the attachment node. -/
theorem C5_counterexample :
    (((CTree.node "ignite" false
        [ CTree.node "scaffold" false
            [ CTree.node "chain" true [], CTree.node "module" true [] ],
          CTree.node "other" false [] ]).children.map CTree.name).contains
      "scaffold") = true ∧
    (linkAppCmd
        (CTree.node "ignite" false
          [ CTree.node "scaffold" false
              [ CTree.node "chain" true [], CTree.node "module" true [] ],
            CTree.node "other" false [] ])
        "myapp" (ACmd.mk "scaffold" "ignite other" [])).2 = none := by
  decide

/-- Witness for C5 at a concrete input: a descriptor named scaffold
attached at the root of a tree that already has a scaffold child fails with
the collision error. -/
theorem C5_name_collision_witness :
    (linkAppCmd
        (CTree.node "ignite" false
          [ CTree.node "scaffold" false
              [ CTree.node "chain" true [], CTree.node "module" true [] ] ])
        "myapp" (ACmd.mk "scaffold" "" [])).2
      = some ⟨"app command " ++ cobraName "scaffold"
          ++ " already exists in Ignite commands", false⟩ :=
  C5_name_collision
    (CTree.node "ignite" false
      [ CTree.node "scaffold" false
          [ CTree.node "chain" true [], CTree.node "module" true [] ] ])
    "myapp" (ACmd.mk "scaffold" "" [])
    (CTree.node "ignite" false
      [ CTree.node "scaffold" false
          [ CTree.node "chain" true [], CTree.node "module" true [] ] ])
    (by decide) (by decide) (by decide)

theorem KillClient_fields (p : App) (c : Cache) :
    (KillClient p c).1.Path = p.Path ∧ (KillClient p c).1.Error = p.Error := by
  unfold KillClient
  dsimp only
  repeat' split
  all_goals exact ⟨rfl, rfl⟩

theorem unloadLoop_pairs (l : List App) (i : Nat) (c : Cache) :
    (unloadLoop i c l).1.map (fun q => (q.Path, q.Error))
      = l.map (fun q => (q.Path, q.Error)) := by
  induction l generalizing i c with
  | nil => rfl
  | cons p rest ih =>
    simp only [unloadLoop, List.map_cons]
    rw [(KillClient_fields p c).1, (KillClient_fields p c).2, ih]

theorem unloadLoop_kill_mem (l : List App) (i j : Nat) (c : Cache)
    (h : j < l.length) :
    LKEv.killAttempt (i + j) ∈ (unloadLoop i c l).2.2 := by
  induction l generalizing i j c with
  | nil => exact absurd h (by simp)
  | cons p rest ih =>
    simp only [unloadLoop]
    cases j with
    | zero => exact List.mem_cons_self _ _
    | succ j =>
      have hj : j < rest.length := by simpa using h
      have := ih (i + 1) j (KillClient p c).2 hj
      have heq : i + 1 + j = i + (j + 1) := by omega
      rw [heq] at this
      exact List.mem_cons_of_mem _ this

theorem linkOneApp_trace (root : CTree) (env : LinkEnv) (i : Nat) (p : App) :
    (linkOneApp root env i p).2.2
      = if p.Error.isSome then [] else [LKEv.manifestRPC i] := by
  unfold linkOneApp
  by_cases h : p.Error.isSome
  · rw [if_pos h, if_pos h]
  · rw [if_neg h, if_neg h]
    cases env.manifestRPC i with
    | none => rfl
    | some m =>
      dsimp only
      cases linkAppHooksT root m.hooks with
      | some e => rfl
      | none =>
        dsimp only
        cases (linkAppCmds root p.Path m.commands).2 with
        | some e => rfl
        | none => rfl

theorem linkAppsLoop_errors (root : CTree) (env : LinkEnv) (i : Nat)
    (l : List App) :
    (linkAppsLoop root env i l).2.2.1
      = (linkAppsLoop root env i l).2.1.filter (fun q => q.Error.isSome) := by
  induction l generalizing root i with
  | nil => rfl
  | cons p rest ih =>
    simp only [linkAppsLoop]
    by_cases h : (linkOneApp root env i p).2.1.Error.isSome
    · simp [List.filter_cons, h, ih]
    · simp [List.filter_cons, h, ih]

theorem linkAppsLoop_length (root : CTree) (env : LinkEnv) (i : Nat)
    (l : List App) :
    (linkAppsLoop root env i l).2.1.length = l.length := by
  induction l generalizing root i with
  | nil => rfl
  | cons p rest ih =>
    simp only [linkAppsLoop, List.length_cons]
    rw [ih]

theorem linkAppsLoop_manifest_mem (l : List App) (root : CTree) (env : LinkEnv)
    (i j : Nat) (p : App) (hj : l[j]? = some p) (hup : p.Error = none) :
    LKEv.manifestRPC (i + j) ∈ (linkAppsLoop root env i l).2.2.2 := by
  induction l generalizing root i j with
  | nil => exact absurd hj (by simp)
  | cons q rest ih =>
    simp only [linkAppsLoop]
    cases j with
    | zero =>
      simp only [List.getElem?_cons_zero, Option.some_inj] at hj
      subst hj
      rw [List.mem_append]
      left
      rw [linkOneApp_trace, hup]
      simp
    | succ j =>
      simp only [List.getElem?_cons_succ] at hj
      have := ih (linkOneApp root env i q).1 (i + 1) j hj
      have heq : i + 1 + j = i + (j + 1) := by omega
      rw [heq] at this
      rw [List.mem_append]
      exact Or.inr this

theorem linkAppsLoop_trace_shape (l : List App) (root : CTree) (env : LinkEnv)
    (i : Nat) (e : LKEv) (he : e ∈ (linkAppsLoop root env i l).2.2.2) :
    ∃ k, e = LKEv.manifestRPC k := by
  induction l generalizing root i with
  | nil => exact absurd he (by simp [linkAppsLoop])
  | cons p rest ih =>
    simp only [linkAppsLoop, List.mem_append] at he
    rcases he with h1 | h2
    · rw [linkOneApp_trace] at h1
      by_cases h : p.Error.isSome
      · rw [if_pos h] at h1
        exact absurd h1 (by simp)
      · rw [if_neg h] at h1
        simp only [List.mem_singleton] at h1
        exact ⟨i, h1⟩
    · exact ih (linkOneApp root env i p).1 (i + 1) h2

theorem errFold_congr (l1 l2 : List App)
    (h : l1.map (fun q => (q.Path, q.Error)) = l2.map (fun q => (q.Path, q.Error))) :
    ∀ acc,
      (l1.filter (fun q => q.Error.isSome)).foldl
        (fun acc q => acc ++ q.Path ++ ": " ++ errMsgOf q) acc
      = (l2.filter (fun q => q.Error.isSome)).foldl
        (fun acc q => acc ++ q.Path ++ ": " ++ errMsgOf q) acc := by
  induction l1 generalizing l2 with
  | nil =>
    cases l2 with
    | nil => intro acc; rfl
    | cons b r2 => exact absurd h (by simp)
  | cons a r1 ih =>
    cases l2 with
    | nil => exact absurd h (by simp)
    | cons b r2 =>
      simp only [List.map_cons, List.cons_eq_cons, Prod.mk.injEq] at h
      obtain ⟨⟨hp, he⟩, hrest⟩ := h
      intro acc
      simp only [List.filter_cons]
      have hiso : a.Error.isSome = b.Error.isSome := by rw [he]
      have hmsg : errMsgOf a = errMsgOf b := by unfold errMsgOf; rw [he]
      by_cases hs : a.Error.isSome
      · rw [if_pos (by simpa using hs), if_pos (by simp [← hiso, hs])]
        simp only [List.foldl_cons]
        rw [hp, hmsg]
        exact ih r2 hrest _
      · rw [if_neg (by simpa using hs), if_neg (by simp [← hiso, hs])]
        exact ih r2 hrest acc
/-- C4: linkApps attempts linking for every non-errored app regardless of
earlier failures (a Manifest RPC for app j appears in the trace); the
combined error is absent exactly when no resulting app carries an error,
and otherwise is the single message naming each failed app's Path and
cause; on failure every app is unloaded (a kill attempt for every index
below the list length appears in the trace), and on success no kill
attempt occurs. -/
theorem C4_link_aggregation (root : CTree) (apps : List App) (c : Cache)
    (env : LinkEnv) :
    (∀ j p, apps[j]? = some p → p.Error = none →
      LKEv.manifestRPC j ∈ (linkApps root apps c env).trace)
    ∧ ((linkApps root apps c env).err = none
        ↔ ∀ q ∈ (linkApps root apps c env).apps, q.Error = none)
    ∧ (∀ e, (linkApps root apps c env).err = some e →
        e = ⟨"fail to link: "
          ++ ((linkApps root apps c env).apps.filter
                (fun q => q.Error.isSome)).foldl
              (fun acc q => acc ++ q.Path ++ ": " ++ errMsgOf q) "", false⟩)
    ∧ ((linkApps root apps c env).err ≠ none →
        ∀ j < apps.length,
          LKEv.killAttempt j ∈ (linkApps root apps c env).trace)
    ∧ ((linkApps root apps c env).err = none →
        ∀ j, LKEv.killAttempt j ∉ (linkApps root apps c env).trace) := by
  unfold linkApps
  dsimp only
  by_cases hL : (linkAppsLoop root env 0 apps).2.2.1.isEmpty
  · rw [if_pos hL]
    dsimp only
    have hfilter : (linkAppsLoop root env 0 apps).2.1.filter
        (fun q => q.Error.isSome) = [] := by
      rw [← linkAppsLoop_errors]
      simpa [List.isEmpty_iff] using hL
    refine ⟨?_, ?_, ?_, ?_, ?_⟩
    · intro j p hj hup
      have := linkAppsLoop_manifest_mem apps root env 0 j p hj hup
      simpa using this
    · constructor
      · intro _ q hq
        have := List.filter_eq_nil.mp hfilter q hq
        simpa [Option.isSome_iff_ne_none] using this
      · intro _; rfl
    · intro e he; cases he
    · intro hne; exact absurd rfl hne
    · intro _ j hj
      obtain ⟨k, hk⟩ := linkAppsLoop_trace_shape apps root env 0 _ hj
      cases hk
  · rw [if_neg hL]
    dsimp only
    have hpairs : (UnloadApps (linkAppsLoop root env 0 apps).2.1 c).1.map
          (fun q => (q.Path, q.Error))
        = (linkAppsLoop root env 0 apps).2.1.map (fun q => (q.Path, q.Error)) := by
      unfold UnloadApps
      exact unloadLoop_pairs _ 0 c
    have hexists : ∃ q ∈ (UnloadApps (linkAppsLoop root env 0 apps).2.1 c).1,
        q.Error.isSome = true := by
      have hfne : (linkAppsLoop root env 0 apps).2.1.filter
          (fun q => q.Error.isSome) ≠ [] := by
        rw [← linkAppsLoop_errors]
        simpa [List.isEmpty_iff] using hL
      rcases hcase : (linkAppsLoop root env 0 apps).2.1.filter
          (fun q => q.Error.isSome) with _ | ⟨a, t⟩
      · exact absurd hcase hfne
      · have ha : a ∈ (linkAppsLoop root env 0 apps).2.1.filter
            (fun q => q.Error.isSome) := by rw [hcase]; exact List.mem_cons_self _ _
        have := List.mem_filter.mp ha
        have hmem : (a.Path, a.Error) ∈ (UnloadApps
            (linkAppsLoop root env 0 apps).2.1 c).1.map
            (fun q => (q.Path, q.Error)) := by
          rw [hpairs]
          exact List.mem_map_of_mem _ this.1
        obtain ⟨q, hq, hqe⟩ := List.mem_map.mp hmem
        refine ⟨q, hq, ?_⟩
        have hqa : q.Error = a.Error := congrArg Prod.snd hqe
        rw [hqa]
        exact this.2
    refine ⟨?_, ?_, ?_, ?_, ?_⟩
    · intro j p hj hup
      have := linkAppsLoop_manifest_mem apps root env 0 j p hj hup
      simp only [List.mem_append]
      left; left
      simpa using this
    · constructor
      · intro h; cases h
      · intro hall
        obtain ⟨q, hq, hqs⟩ := hexists
        have := hall q hq
        rw [this] at hqs
        cases hqs
    · intro e he
      have he2 := (Option.some_inj.mp he).symm
      rw [he2, linkAppsLoop_errors, errFold_congr _ _ hpairs ""]
    · intro _ j hj
      simp only [List.mem_append]
      right
      unfold UnloadApps
      have := unloadLoop_kill_mem (linkAppsLoop root env 0 apps).2.1 0 j c
        (by rw [linkAppsLoop_length]; exact hj)
      simpa using this
    · intro h; cases h
/-- Witness for C4 at a concrete input: with one healthy app and one app
already in error, the healthy app's Manifest RPC appears in the trace and
the second app is nevertheless unloaded (kill attempt at index 1). -/
theorem C4_link_aggregation_witness :
    LKEv.manifestRPC 0 ∈ (linkApps (CTree.node "ignite" false [])
        [{ Path := "a0" }, { Path := "a1", Error := some ⟨"boom", false⟩ }]
        [] ⟨fun _ => some ⟨"m", false, [], []⟩⟩).trace
    ∧ LKEv.killAttempt 1 ∈ (linkApps (CTree.node "ignite" false [])
        [{ Path := "a0" }, { Path := "a1", Error := some ⟨"boom", false⟩ }]
        [] ⟨fun _ => some ⟨"m", false, [], []⟩⟩).trace := by
  refine ⟨(C4_link_aggregation (CTree.node "ignite" false [])
      [{ Path := "a0" }, { Path := "a1", Error := some ⟨"boom", false⟩ }]
      [] ⟨fun _ => some ⟨"m", false, [], []⟩⟩).1 0 { Path := "a0" } rfl rfl,
    (C4_link_aggregation (CTree.node "ignite" false [])
      [{ Path := "a0" }, { Path := "a1", Error := some ⟨"boom", false⟩ }]
      [] ⟨fun _ => some ⟨"m", false, [], []⟩⟩).2.2.2.1 (by decide) 1 (by decide)⟩

theorem loadHandshake_manifest (p : App) (conf : ReattachConfig) (c : Cache)
    (env : LoadEnv) (m : GoManifest)
    (hc : env.connectOk = true) (hd : env.dispenseOk = true)
    (hm : env.manifest = some m) :
    (loadHandshake p conf c env).2.2.count LEv.manifestRPC = 1
    ∧ (loadHandshake p conf c env).1.manifest = some m := by
  unfold loadHandshake
  rw [hc, hd, hm]
  dsimp only
  rw [if_neg (by simp), if_neg (by simp)]
  by_cases h3 : (m.sharedHost && !(checkConfCache p.Path c)) = true
  · rw [if_pos h3]
    cases hw : writeConfigCache env.writeCacheOk p.Path conf c with
    | error e => exact ⟨rfl, rfl⟩
    | ok c1 => exact ⟨rfl, rfl⟩
  · rw [if_neg h3]
    exact ⟨rfl, rfl⟩

theorem loadConnect_manifest (selfId : Nat) (p : App) (c : Cache)
    (env : LoadEnv) (m : GoManifest)
    (hc : env.connectOk = true) (hd : env.dispenseOk = true)
    (hm : env.manifest = some m) (hr : env.readCacheOk = true) :
    (loadConnect selfId p c env).2.2.count LEv.manifestRPC = 1
    ∧ (loadConnect selfId p c env).1.manifest = some m := by
  unfold loadConnect
  by_cases hchk : checkConfCache p.Path c = true
  · rw [if_pos hchk]
    obtain ⟨v, hv⟩ := checkConfCache_true p.Path c hchk
    have hp : p.Path ≠ "" := by
      intro h0
      rw [h0] at hchk
      unfold checkConfCache at hchk
      simp at hchk
    rw [readConfigCache_ok env.readCacheOk p.Path c v hp hr hv]
    dsimp only
    have hh := loadHandshake_manifest { p with client := some ⟨v, true⟩ } v c env m hc hd hm
    refine ⟨?_, hh.2⟩
    rw [List.count_cons_of_ne (by decide)]
    exact hh.1
  · rw [if_neg hchk]
    dsimp only
    have hh := loadHandshake_manifest
      { p with client := some ⟨(⟨selfId⟩ : ReattachConfig), true⟩ } ⟨selfId⟩ c env m hc hd hm
    refine ⟨?_, hh.2⟩
    rw [List.count_cons_of_ne (by decide)]
    exact hh.1

theorem printAppsTrace_mem (l : List App) (i j : Nat) (q : App)
    (hj : l[j]? = some q) (hq : q.Error = none) :
    LKEv.statusRPC (i + j) ∈ printAppsTrace i l := by
  induction l generalizing i j with
  | nil => exact absurd hj (by simp)
  | cons p rest ih =>
    unfold printAppsTrace
    cases j with
    | zero =>
      simp only [List.getElem?_cons_zero, Option.some_inj] at hj
      subst hj
      simp [hq]
    | succ j =>
      simp only [List.getElem?_cons_succ] at hj
      have hmem := ih (i + 1) j hj
      have heq : i + 1 + j = i + (j + 1) := by omega
      rw [heq] at hmem
      exact List.mem_append.mpr (Or.inr hmem)

/-- C3 (amended): during a load that reaches the manifest handshake, the
Manifest RPC is issued exactly once and the result is cached in the App
value; the Manifest accessor reuses that cache without further RPC.
However, linkApps does not reuse the cache: it fetches the manifest again
over RPC for every app whose Error slot is empty, even when the cached
manifest is present in the App value (see the counterexample for the
original claim); and status reporting (getAppStatus invoked per app by
printApps) likewise issues a fresh Manifest RPC for every app whose Error
slot is empty. -/
theorem C3_manifest_caching (selfId : Nat) (p : App) (c : Cache)
    (env : LoadEnv) (m : GoManifest) (hp0 : p.Error = none)
    (hprep : (loadPrep p env).1.Error = none)
    (hc : env.connectOk = true) (hd : env.dispenseOk = true)
    (hm : env.manifest = some m) (hr : env.readCacheOk = true) :
    (load selfId p c env).2.2.count LEv.manifestRPC = 1
    ∧ Manifest (load selfId p c env).1 = some m
    ∧ (∀ (root : CTree) (apps : List App) (lc : Cache) (lenv : LinkEnv)
        (j : Nat) (q : App), apps[j]? = some q → q.Error = none →
        q.manifest.isSome = true →
        LKEv.manifestRPC j ∈ (linkApps root apps lc lenv).trace)
    ∧ (∀ (apps2 : List App) (j : Nat) (q : App), apps2[j]? = some q →
        q.Error = none → LKEv.statusRPC j ∈ printAppsTrace 0 apps2) := by
  refine ⟨?_, ?_, ?_, ?_⟩
  · unfold load
    rw [if_neg (by simp [hp0])]
    dsimp only
    rw [if_neg (by simp [hprep])]
    have hid := loadPrep_ok_id p env hprep
    rw [hid]
    dsimp only
    rw [List.count_append]
    have h0 : (loadPrep p env).2.count LEv.manifestRPC = 0 := by
      rw [List.count_eq_zero]
      intro hmem
      rcases loadPrep_trace_sub p env _ hmem with h | h
      · exact absurd h (by decide)
      · exact absurd h (by decide)
    rw [h0, (loadConnect_manifest selfId p c env m hc hd hm hr).1]
  · unfold load
    rw [if_neg (by simp [hp0])]
    dsimp only
    rw [if_neg (by simp [hprep])]
    have hid := loadPrep_ok_id p env hprep
    rw [hid]
    dsimp only
    unfold Manifest
    exact (loadConnect_manifest selfId p c env m hc hd hm hr).2
  · intro root apps lc lenv j q hj hq _
    have := linkAppsLoop_manifest_mem apps root lenv 0 j q hj hq
    unfold linkApps
    dsimp only
    by_cases hL : (linkAppsLoop root lenv 0 apps).2.2.1.isEmpty
    · rw [if_pos hL]
      simpa using this
    · rw [if_neg hL]
      dsimp only
      simp only [List.mem_append]
      left; left
      simpa using this
  · intro apps2 j q hj hq
    have hmem := printAppsTrace_mem apps2 0 j q hj hq
    simpa using hmem

/-- C3 counterexample: an app whose manifest is already cached in the App
value still triggers a fresh Manifest RPC when linkApps links it, so
subsequent uses of the manifest do not reuse the cache. -/
theorem C3_counterexample :
    ({ Path := "a0", manifest := some ⟨"m", false, [], []⟩ } : App).manifest.isSome
      = true
    ∧ (linkApps (CTree.node "ignite" false [])
        [{ Path := "a0", manifest := some ⟨"m", false, [], []⟩ }]
        [] ⟨fun _ => some ⟨"m", false, [], []⟩⟩).trace = [LKEv.manifestRPC 0] := by
  constructor
  · rfl
  · rfl

/-- Witness for C3 at a concrete input: a load with every oracle healthy
performs exactly one Manifest RPC and the accessor returns the manifest it
cached. -/
theorem C3_manifest_caching_witness :
    (load 7 { Path := "a0" } []
        ⟨true, true, [], false, true, true, true, true,
         some ⟨"m", false, [], []⟩, true, true⟩).2.2.count LEv.manifestRPC = 1
    ∧ Manifest (load 7 { Path := "a0" } []
        ⟨true, true, [], false, true, true, true, true,
         some ⟨"m", false, [], []⟩, true, true⟩).1 = some ⟨"m", false, [], []⟩ :=
  ⟨(C3_manifest_caching 7 { Path := "a0" } []
      ⟨true, true, [], false, true, true, true, true,
       some ⟨"m", false, [], []⟩, true, true⟩ ⟨"m", false, [], []⟩
      rfl (by decide) rfl rfl rfl rfl).1,
   (C3_manifest_caching 7 { Path := "a0" } []
      ⟨true, true, [], false, true, true, true, true,
       some ⟨"m", false, [], []⟩, true, true⟩ ⟨"m", false, [], []⟩
      rfl (by decide) rfl rfl rfl rfl).2.1⟩

theorem clean_errored (p : App) (ro : Bool) (h : p.Error.isSome = true) :
    clean p ro = (none, false) := by
  unfold clean
  rw [if_pos h]

theorem fetch_errored (p : App) (co : Bool) (h : p.Error.isSome = true) :
    fetch p co = (p, []) := by
  unfold fetch
  by_cases hl : isLocalPath p.Path = true
  · rw [if_pos hl]
  · rw [if_neg hl, if_pos h]

theorem clean_local (p : App) (ro : Bool) (h : isLocalPath p.Path = true) :
    clean p ro = (none, false) := by
  unfold clean
  by_cases he : p.Error.isSome = true
  · rw [if_pos he]
  · rw [if_neg he, if_pos h]

theorem Update_first_failure_aux (l : List (App × Bool × Bool)) (idx j : Nat)
    (x : App × Bool × Bool) (e : GoErr)
    (hx : l[j]? = some x) (hcl : (clean x.1 x.2.1).1 = some e)
    (hfirst : ∀ k y, k < j → l[k]? = some y → (clean y.1 y.2.1).1 = none) :
    (Update l idx).2.2 = some e
    ∧ (∀ ev ∈ (Update l idx).2.1, UEv.idx ev ≤ idx + j)
    ∧ (∀ k, j ≤ k → (Update l idx).1[k]? = (l.map (fun y => y.1))[k]?) := by
  induction l generalizing idx j with
  | nil => exact absurd hx (by simp)
  | cons hd rest ih =>
    obtain ⟨p, ro, co⟩ := hd
    unfold Update
    cases j with
    | zero =>
      simp only [List.getElem?_cons_zero, Option.some_inj] at hx
      subst hx
      rcases hc2 : clean p ro with ⟨oe, att⟩
      rw [hc2] at hcl
      dsimp only at hcl
      subst hcl
      dsimp only
      refine ⟨rfl, ?_, ?_⟩
      · intro ev hev
        cases att with
        | false => simp at hev
        | true =>
          simp at hev
          subst hev
          simp [UEv.idx]
      · intro k _
        rfl
    | succ j =>
      have h0 : (clean p ro).1 = none :=
        hfirst 0 (p, ro, co) (Nat.succ_pos j) (by simp)
      rcases hc2 : clean p ro with ⟨oe, att⟩
      rw [hc2] at h0
      dsimp only at h0
      subst h0
      dsimp only
      rcases hf : fetch p co with ⟨p1, t1⟩
      dsimp only
      rcases hu : Update rest (idx + 1) with ⟨ra, re, rerr⟩
      dsimp only
      simp only [List.getElem?_cons_succ] at hx
      have IH := ih (idx + 1) j hx
        (fun k y hk hy => hfirst (k + 1) y (by omega) (by simpa using hy))
      rw [hu] at IH
      dsimp only at IH
      refine ⟨IH.1, ?_, ?_⟩
      · intro ev hev
        simp only [List.mem_append] at hev
        rcases hev with (h1 | h2) | h3
        · cases att with
          | false => simp at h1
          | true =>
            simp at h1
            subst h1
            simp only [UEv.idx]
            omega
        · obtain ⟨a, _, ha⟩ := List.mem_map.mp h2
          subst ha
          simp only [UEv.idx]
          omega
        · have := IH.2.1 ev h3
          omega
      · intro k hk
        cases k with
        | zero => omega
        | succ k =>
          simp only [List.getElem?_cons_succ, List.map_cons]
          exact IH.2.2 k (by omega)

/-- C10: Update processes the apps in order and returns at the first app
whose clean fails: the returned error is that clean error, every filesystem
event in the trace concerns an app at or before the failing position, and
every app from the failing position on is returned unchanged (neither
cleaned nor re-fetched).  Moreover an app whose Error slot is already set
is skipped by clean without attempting a removal and its fetch is a no-op,
and a local app's clean attempts no removal. -/
theorem C10_update_first_failure (l : List (App × Bool × Bool)) (idx j : Nat)
    (x : App × Bool × Bool) (e : GoErr)
    (hx : l[j]? = some x) (hcl : (clean x.1 x.2.1).1 = some e)
    (hfirst : ∀ k y, k < j → l[k]? = some y → (clean y.1 y.2.1).1 = none) :
    (Update l idx).2.2 = some e
    ∧ (∀ ev ∈ (Update l idx).2.1, UEv.idx ev ≤ idx + j)
    ∧ (∀ k, j ≤ k → (Update l idx).1[k]? = (l.map (fun y => y.1))[k]?)
    ∧ (∀ (p : App) (ro co : Bool), p.Error.isSome = true →
        clean p ro = (none, false) ∧ fetch p co = (p, []))
    ∧ (∀ (p : App) (ro : Bool), isLocalPath p.Path = true →
        clean p ro = (none, false)) := by
  have ha := Update_first_failure_aux l idx j x e hx hcl hfirst
  exact ⟨ha.1, ha.2.1, ha.2.2,
    fun p ro co h => ⟨clean_errored p ro h, fetch_errored p co h⟩,
    fun p ro h => clean_local p ro h⟩

/-- Witness for C10 at a concrete input: with the second app's directory
removal failing, Update returns that removal error. -/
theorem C10_update_first_failure_witness :
    (Update [({ Path := "a0" }, true, true),
             ({ Path := "a1", cloneDir := "d1" }, false, true),
             ({ Path := "a2" }, true, true)] 0).2.2
      = some ⟨"remove d1", false⟩ :=
  (C10_update_first_failure
    [({ Path := "a0" }, true, true),
     ({ Path := "a1", cloneDir := "d1" }, false, true),
     ({ Path := "a2" }, true, true)] 0 1
    ({ Path := "a1", cloneDir := "d1" }, false, true) ⟨"remove d1", false⟩
    rfl (by decide)
    (by
      intro k y hk hy
      have hk0 : k = 0 := by omega
      subst hk0
      cases Option.some_inj.mp hy
      decide)).1

end Ignite
